import Mathlib

/-!
# Verification of the spark-arcanum rules ingestor and database refresher

Shallow embedding of the TypeScript sources

  - src/server/rules-updater.ts   (parseComprehensiveRules, createRuleEntry,
    updateRulesDatabase, updateRulesFromFile, updateRulesFromWotc,
    and the /api/rulings/ask route handler of registerRoutes)
  - src/server/cron/database-update.ts  (updateCardDatabase)

Strings are modelled as `List Char`.  The JavaScript regex scans are
translated into explicit scanning functions; in every place where the
original pattern is deterministic (greedy runs whose give-backs cannot
succeed, lazy runs gated by a lookahead), the translation implements that
deterministic behaviour directly.  Functions whose recursion is not
structural take an explicit fuel argument; the public wrappers pass the
input length, which is an upper bound on the number of scan steps because
every step consumes at least one character.

Effectful operations (database reads/writes, file system, HTTPS download,
the LLM call) are modelled by explicit world records listing the outcome of
each external interaction, and the functions return the structured result
together with a trace of the effects they performed.
-/

deriving instance DecidableEq for Except

/-! ## Character classes of the JavaScript regexes (ASCII, as in the source data) -/

/-- JS regex `\d`, i.e. `[0-9]`. -/
def isDigitC (c : Char) : Bool := ('0' ≤ c) && (c ≤ '9')

/-- JS regex `[a-z]`. -/
def isLowerC (c : Char) : Bool := ('a' ≤ c) && (c ≤ 'z')

/-- JS regex `[A-Z]`. -/
def isUpperC (c : Char) : Bool := ('A' ≤ c) && (c ≤ 'Z')

/-- JS regex `\s`, restricted to the ASCII whitespace characters that occur
in the rulebook data: space, tab, newline, carriage return, vertical tab,
form feed. -/
def isSpaceC (c : Char) : Bool :=
  (c == ' ') || (c == '\t') || (c == '\n') || (c == '\r') || (c == '\x0b') || (c == '\x0c')

/-- JS regex `\w`, i.e. `[A-Za-z0-9_]` (used by the `\b` boundaries of the
keyword pattern). -/
def isWordC (c : Char) : Bool := isDigitC c || isLowerC c || isUpperC c || (c == '_')

/-- `parseInt` on a string of decimal digits. -/
def natOfDigits (ds : List Char) : Nat :=
  ds.foldl (fun n c => n * 10 + (c.toNat - ('0').toNat)) 0

/-- JS `String.prototype.trim()`. -/
def trimList (s : List Char) : List Char :=
  ((s.dropWhile isSpaceC).reverse.dropWhile isSpaceC).reverse

/-- JS `String.prototype.includes` / `indexOf(...) !== -1`:
does `pat` occur as a contiguous segment of the string? -/
def hasSeg (pat : List Char) : List Char → Bool
  | [] => pat.isEmpty
  | c :: t => pat.isPrefixOf (c :: t) || hasSeg pat t

/-! ## The rule pattern `/(\d{3}\.\d+[a-z]*)\.\s+([^0-9]*?)(?=\d{3}\.\d+[a-z]*\.|$)/g`

`\d{3}` matches exactly three digits; the following `\.` then has to match
literally, so a longer digit run simply fails at this start position.
`\d+` and `[a-z]*` are greedy maximal runs: giving characters back would
force `\.` to match a digit or a letter, which is impossible, so the match
is deterministic.  The lazy `([^0-9]*?)` grows one non-digit at a time and
stops at the first position where the lookahead (a complete
`\d{3}\.\d+[a-z]*\.` or the end of input) holds; reaching a digit that does
not start the lookahead fails the whole attempt at this start position. -/

/-- Match `\d{3}\.\d+[a-z]*` at the start of `s`; returns the matched
capture and the remaining characters. -/
def parseRuleNumber (s : List Char) : Option (List Char × List Char) :=
  match s with
  | c1 :: c2 :: c3 :: c4 :: rest =>
    if isDigitC c1 && isDigitC c2 && isDigitC c3 && (c4 == '.') then
      let ds := rest.takeWhile isDigitC
      let r1 := rest.dropWhile isDigitC
      if ds.isEmpty then none
      else
        let ls := r1.takeWhile isLowerC
        let r2 := r1.dropWhile isLowerC
        some (c1 :: c2 :: c3 :: '.' :: (ds ++ ls), r2)
    else none
  | _ => none

/-- Match `\d{3}\.\d+[a-z]*\.` at the start of `s` (the rule number followed
by its terminating dot, as required both by the main pattern and by its
lookahead). -/
def parseRuleNumDot (s : List Char) : Option (List Char × List Char) :=
  match parseRuleNumber s with
  | some (num, c :: r) => if c == '.' then some (num, r) else none
  | _ => none

/-- The lazy body `([^0-9]*?)(?=\d{3}\.\d+[a-z]*\.|$)`: consume non-digits
until the lookahead holds; `none` when a digit is reached that does not
start a complete rule-number-dot. -/
def scanBody : List Char → Option (List Char × List Char)
  | [] => some ([], [])
  | c :: cs =>
    if (parseRuleNumDot (c :: cs)).isSome then some ([], c :: cs)
    else if isDigitC c then none
    else
      match scanBody cs with
      | some (b, r) => some (c :: b, r)
      | none => none

/-- One attempt of the rule pattern at the start of `s`: rule number, dot,
`\s+`, lazy body.  Returns (capture 1, capture 2, rest after the match). -/
def ruleMatchAt (s : List Char) : Option (List Char × List Char × List Char) :=
  match parseRuleNumDot s with
  | none => none
  | some (num, r1) =>
    let sp := r1.takeWhile isSpaceC
    let r2 := r1.dropWhile isSpaceC
    if sp.isEmpty then none
    else
      match scanBody r2 with
      | some (body, rest) => some (num, body, rest)
      | none => none

/-- The `exec` loop of the rule pattern with the `g` flag: try a match at
each position; after a match continue at its end.  The fuel is decremented
once per step while each step consumes at least one character, so an
initial fuel of the input length never runs out. -/
def findRuleMatchesF : Nat → List Char → List (List Char × List Char)
  | 0, _ => []
  | _, [] => []
  | fuel+1, c :: cs =>
    match ruleMatchAt (c :: cs) with
    | some (num, body, rest) => (num, body) :: findRuleMatchesF fuel rest
    | none => findRuleMatchesF fuel cs

def findRuleMatches (s : List Char) : List (List Char × List Char) :=
  findRuleMatchesF s.length s

/-! ## Chapter and section header patterns

`/(\d+)\.\s+([A-Z][^0-9]*?)(?=\d{3}\.)/g` and
`/(\d{3})\.\s+([A-Z][^0-9]*?)(?=\d{3}\.\d+)/g`. -/

/-- Lookahead `(?=\d{3}\.)`. -/
def lookChap (s : List Char) : Bool :=
  match s with
  | a :: b :: c :: d :: _ => isDigitC a && isDigitC b && isDigitC c && (d == '.')
  | _ => false

/-- Lookahead `(?=\d{3}\.\d+)`. -/
def lookSec (s : List Char) : Bool :=
  match s with
  | a :: b :: c :: d :: e :: _ =>
    isDigitC a && isDigitC b && isDigitC c && (d == '.') && isDigitC e
  | _ => false

/-- The lazy `[^0-9]*?` of the header patterns, gated by the given
lookahead (which has no end-of-input alternative here). -/
def scanTitle (look : List Char → Bool) : List Char → Option (List Char × List Char)
  | [] => none
  | c :: cs =>
    if look (c :: cs) then some ([], c :: cs)
    else if isDigitC c then none
    else
      match scanTitle look cs with
      | some (t, r) => some (c :: t, r)
      | none => none

/-- One attempt of the chapter pattern at the start of `s`:
`(\d+)\.\s+([A-Z][^0-9]*?)(?=\d{3}\.)`.  Returns
(`parseInt` of capture 1, trimmed capture 2, rest). -/
def chapMatchAt (s : List Char) : Option (Nat × List Char × List Char) :=
  let ds := s.takeWhile isDigitC
  let r1 := s.dropWhile isDigitC
  if ds.isEmpty then none
  else
    match r1 with
    | c :: r2 =>
      if c == '.' then
        let sp := r2.takeWhile isSpaceC
        let r3 := r2.dropWhile isSpaceC
        if sp.isEmpty then none
        else
          match r3 with
          | u :: r4 =>
            if isUpperC u then
              match scanTitle lookChap r4 with
              | some (t, rest) => some (natOfDigits ds, trimList (u :: t), rest)
              | none => none
            else none
          | [] => none
      else none
    | [] => none

/-- The `exec` loop of the chapter pattern (the JS object assignment
`chapters[n] = title` is modelled by collecting the pairs in scan order;
a later pair for the same key overwrites, see `lookupLast`). -/
def collectChaptersF : Nat → List Char → List (Nat × List Char)
  | 0, _ => []
  | _, [] => []
  | fuel+1, c :: cs =>
    match chapMatchAt (c :: cs) with
    | some (n, title, rest) => (n, title) :: collectChaptersF fuel rest
    | none => collectChaptersF fuel cs

/-- One attempt of the section pattern at the start of `s`:
`(\d{3})\.\s+([A-Z][^0-9]*?)(?=\d{3}\.\d+)` (exactly three digits, then a
literal dot). -/
def secMatchAt (s : List Char) : Option (Nat × List Char × List Char) :=
  match s with
  | a :: b :: c :: d :: r2 =>
    if isDigitC a && isDigitC b && isDigitC c && (d == '.') then
      let sp := r2.takeWhile isSpaceC
      let r3 := r2.dropWhile isSpaceC
      if sp.isEmpty then none
      else
        match r3 with
        | u :: r4 =>
          if isUpperC u then
            match scanTitle lookSec r4 with
            | some (t, rest) => some (natOfDigits [a, b, c], trimList (u :: t), rest)
            | none => none
          else none
        | [] => none
    else none
  | _ => none

/-- The `exec` loop of the section pattern. -/
def collectSectionsF : Nat → List Char → List (Nat × List Char)
  | 0, _ => []
  | _, [] => []
  | fuel+1, c :: cs =>
    match secMatchAt (c :: cs) with
    | some (n, title, rest) => (n, title) :: collectSectionsF fuel rest
    | none => collectSectionsF fuel cs

/-- JS object lookup after the assignments were performed in scan order:
the last assignment for a key wins. -/
def lookupLast (m : List (Nat × List Char)) (k : Nat) : Option (List Char) :=
  ((m.filter (fun p => p.1 == k)).map (fun p => p.2)).getLast?

/-- JS `a || b` on a possibly-absent string: `undefined` and the empty
string both fall through to the default. -/
def orFalsy (v : Option (List Char)) (d : List Char) : List Char :=
  match v with
  | some s => if s.isEmpty then d else s
  | none => d

/-! ## createRuleEntry: examples, keywords, subsection -/

def exampleLit : List Char := ("Example:").toList

/-- Split at the first `'.'`: `some (before, after)` when a dot exists.
Used for `[^.]*\.`: the greedy non-dot run must stop at the first dot,
and giving characters back cannot make the final `\.` match. -/
def splitAtDot : List Char → Option (List Char × List Char)
  | [] => none
  | c :: t =>
    if c == '.' then some ([], t)
    else
      match splitAtDot t with
      | some (nd, r) => some (c :: nd, r)
      | none => none

/-- The `exec` loop of `/Example:\s*([^.]*\.)/g`, collecting the trimmed
capture of each match. -/
def extractExamplesF : Nat → List Char → List (List Char)
  | 0, _ => []
  | _, [] => []
  | fuel+1, c :: cs =>
    if exampleLit.isPrefixOf (c :: cs) then
      let r1 := (c :: cs).drop 8
      let r2 := r1.dropWhile isSpaceC
      match splitAtDot r2 with
      | some (nd, rest) => trimList (nd ++ ['.']) :: extractExamplesF fuel rest
      | none => extractExamplesF fuel cs
    else extractExamplesF fuel cs

def extractExamples (s : List Char) : List (List Char) := extractExamplesF s.length s

/-- `text.replace(/Example:\s*[^.]*\./g, '')`: the same scan, deleting each
matched span. -/
def removeExamplesF : Nat → List Char → List Char
  | 0, s => s
  | _, [] => []
  | fuel+1, c :: cs =>
    if exampleLit.isPrefixOf (c :: cs) then
      let r1 := (c :: cs).drop 8
      let r2 := r1.dropWhile isSpaceC
      match splitAtDot r2 with
      | some (_, rest) => removeExamplesF fuel rest
      | none => c :: removeExamplesF fuel cs
    else c :: removeExamplesF fuel cs

def removeExamples (s : List Char) : List Char := removeExamplesF s.length s

/-! ### The keyword pattern `/\b[A-Z][a-z]+(?:\s+[A-Z][a-z]+)*\b/g`

A match is a greedy chain of capitalized words.  When the final `\b`
fails (the next character is a word character that is not a lowercase
letter), shrinking the last `[a-z]+` can never restore a boundary between
two letters, so backtracking drops the last `(?:\s+[A-Z][a-z]+)` group
iteration entirely (after which the boundary is guaranteed, the next
character being whitespace); a single capitalized word in that situation
fails at this start position. -/

/-- `[A-Z][a-z]+` at the start of `s`. -/
def kwUnitAt (s : List Char) : Option (List Char × List Char) :=
  match s with
  | c :: cs =>
    if isUpperC c then
      let ls := cs.takeWhile isLowerC
      let r := cs.dropWhile isLowerC
      if ls.isEmpty then none else some (c :: ls, r)
    else none
  | [] => none

/-- The greedy `(?:\s+[A-Z][a-z]+)*` chain: the list of matched
separator-plus-word segments and the rest. -/
def kwTailF : Nat → List Char → List (List Char) × List Char
  | 0, s => ([], s)
  | fuel+1, s =>
    let ws := s.takeWhile isSpaceC
    let r1 := s.dropWhile isSpaceC
    if ws.isEmpty then ([], s)
    else
      match kwUnitAt r1 with
      | some (u, r2) =>
        let (segs, rest) := kwTailF fuel r2
        ((ws ++ u) :: segs, rest)
      | none => ([], s)

def headWord : List Char → Bool
  | [] => false
  | c :: _ => isWordC c

/-- The `match(...g)` loop of the keyword pattern.  `prevW` records whether
the previous character is a word character (for the leading `\b`). -/
def kwScanF : Nat → Bool → List Char → List (List Char)
  | 0, _, _ => []
  | _, _, [] => []
  | fuel+1, prevW, c :: cs =>
    if !prevW && isUpperC c then
      match kwUnitAt (c :: cs) with
      | some (u0, r1) =>
        let (segs, rest) := kwTailF r1.length r1
        if !(headWord rest) then
          (u0 ++ segs.flatten) :: kwScanF fuel true rest
        else
          match segs.getLast? with
          | some lastSeg => (u0 ++ segs.dropLast.flatten) :: kwScanF fuel true (lastSeg ++ rest)
          | none => kwScanF fuel (isWordC c) cs
      | none => kwScanF fuel (isWordC c) cs
    else kwScanF fuel (isWordC c) cs

/-- `text.match(/\b[A-Z][a-z]+(?:\s+[A-Z][a-z]+)*\b/g)` followed by
`.slice(0, 10)`. -/
def extractKeywords (s : List Char) : List (List Char) :=
  (kwScanF s.length false s).take 10

/-! ## Rule entries -/

/-- A parsed rule record (the TS field `section` is called `sectionName`
here because `section` is reserved in Lean). -/
structure RuleEntry where
  ruleNumber : List Char
  text : List Char
  examples : List (List Char)
  keywords : List (List Char)
  chapter : List Char
  sectionName : List Char
  subsection : List Char
  relatedRules : List (List Char)
deriving DecidableEq, Repr

/-- `ruleNumber.includes('.') ? ruleNumber.split('.')[1] : ''`. -/
def subsectionOf (ruleNumber : List Char) : List Char :=
  if ruleNumber.any (fun c => c == '.') then
    ((ruleNumber.dropWhile (fun c => !(c == '.'))).drop 1).takeWhile (fun c => !(c == '.'))
  else []

/-- `createRuleEntry` of rules-updater.ts. -/
def createRuleEntry (ruleNumber text chapter sectionName : List Char) : RuleEntry :=
  { ruleNumber := ruleNumber
    text := trimList (removeExamples text)
    examples := extractExamples text
    keywords := extractKeywords text
    chapter := chapter
    sectionName := sectionName
    subsection := subsectionOf ruleNumber
    relatedRules := [] }

/-- The rule loop of `parseComprehensiveRules`: filter bodies whose trimmed
length is at most 10, look up chapter/section with fallback to the last
seen values (which are updated only for retained rules, as in the source). -/
def buildRuleEntries (chapters sections : List (Nat × List Char)) :
    List Char → List Char → List (List Char × List Char) → List RuleEntry
  | _, _, [] => []
  | curCh, curSec, (num, body) :: rest =>
    let t := trimList body
    if 10 < t.length then
      let rulePrefix := natOfDigits (num.takeWhile isDigitC)
      let ch := orFalsy (lookupLast chapters (rulePrefix / 100)) curCh
      let sec := orFalsy (lookupLast sections rulePrefix) curSec
      createRuleEntry num t ch sec :: buildRuleEntries chapters sections ch sec rest
    else buildRuleEntries chapters sections curCh curSec rest

def gameAnchor : List Char := ("1. Game Concepts").toList

/-- `rulesText.indexOf('1. Game Concepts')` followed by `substring`:
the suffix starting at the first occurrence of the anchor, if any. -/
def dropToAnchor : List Char → Option (List Char)
  | [] => none
  | c :: t => if gameAnchor.isPrefixOf (c :: t) then some (c :: t) else dropToAnchor t

/-- `parseComprehensiveRules` of rules-updater.ts. -/
def parseComprehensiveRules (text : List Char) : List RuleEntry :=
  match dropToAnchor text with
  | none => []
  | some clean =>
    let chapters := collectChaptersF clean.length clean
    let sections := collectSectionsF clean.length clean
    let found := findRuleMatchesF clean.length clean
    buildRuleEntries chapters sections (("Game Concepts").toList) [] found

/-! ## Spec-side rule-number patterns (for claim C4)

`matchesRulePat` is the shape the code actually produces
(`\d{3}\.\d+[a-z]*`, full match); `matchesClaimRulePat` is the pattern
stated by the specification (`\d{3}\.\d+[a-z]?`, at most one lowercase
letter). -/

def matchesRulePat (s : List Char) : Bool :=
  match s with
  | c1 :: c2 :: c3 :: c4 :: rest =>
    isDigitC c1 && isDigitC c2 && isDigitC c3 && (c4 == '.') &&
      (!(rest.takeWhile isDigitC).isEmpty) && (rest.dropWhile isDigitC).all isLowerC
  | _ => false

def matchesClaimRulePat (s : List Char) : Bool :=
  match s with
  | c1 :: c2 :: c3 :: c4 :: rest =>
    isDigitC c1 && isDigitC c2 && isDigitC c3 && (c4 == '.') &&
      (!(rest.takeWhile isDigitC).isEmpty) && (rest.dropWhile isDigitC).all isLowerC &&
      decide ((rest.dropWhile isDigitC).length ≤ 1)
  | _ => false

/-! ## updateRulesDatabase (rules ingestion orchestrator)

`updateRulesDatabase(filePath)` reads the file, deletes all rules, parses,
and inserts the parsed records in batches of 100
(`for (let i = 0; i < parsedRules.length; i += batchSize)` with
`slice(i, i + batchSize)`).  Any error is rethrown to the caller. -/

/-- The batch decomposition of the insert loop. -/
def batchesF {α : Type} : Nat → List α → List (List α)
  | 0, _ => []
  | fuel+1, l => if l.isEmpty then [] else l.take 100 :: batchesF fuel (l.drop 100)

def batches {α : Type} (l : List α) : List (List α) := batchesF l.length l

/-- An observable database operation of the ingestion run. -/
inductive DbEffect where
  | deleteRules
  | insertRules (batch : List RuleEntry)
deriving DecidableEq, Repr

/-- Outcomes of the external interactions of `updateRulesDatabase`:
the file read, the delete, and each batch insert (indexed from 0);
`none` means the operation succeeds, `some e` that it throws `e`. -/
structure IngestWorld where
  file : Except String (List Char)
  deleteFails : Option String
  insertFails : Nat → Option String

/-- Result of a run: the returned/thrown value, the final rules table, and
the database operations that were performed. -/
structure IngestRun where
  result : Except String Unit
  table : List RuleEntry
  effects : List DbEffect
deriving DecidableEq, Repr

/-- The batch insert loop: each successful insert appends its batch to the
table; a throw aborts the remaining batches (partial table). -/
def runInsertBatches (ins : Nat → Option String) :
    Nat → List (List RuleEntry) → List RuleEntry → IngestRun
  | _, [], tbl => ⟨Except.ok (), tbl, []⟩
  | i, b :: bs, tbl =>
    match ins i with
    | some e => ⟨Except.error e, tbl, []⟩
    | none =>
      let r := runInsertBatches ins (i + 1) bs (tbl ++ b)
      ⟨r.result, r.table, DbEffect.insertRules b :: r.effects⟩

/-- `updateRulesDatabase` of rules-updater.ts.  `table` is the rules table
before the call. -/
def updateRulesDatabase (w : IngestWorld) (table : List RuleEntry) : IngestRun :=
  match w.file with
  | Except.error e => ⟨Except.error e, table, []⟩
  | Except.ok text =>
    match w.deleteFails with
    | some e => ⟨Except.error e, table, []⟩
    | none =>
      let parsed := parseComprehensiveRules text
      let r := runInsertBatches w.insertFails 0 (batches parsed) []
      ⟨r.result, r.table, DbEffect.deleteRules :: r.effects⟩

/-! ## updateRulesFromWotc

The try block covers the dynamic imports and the staleness-gate select.
The download itself happens inside `return new Promise((resolve, reject)
=> ...)`: in JavaScript, `return p` inside a try block does not await `p`,
so when that promise later rejects (HTTP status other than 200, network
error, file-stream error, or a failure of `updateRulesDatabase` on the
downloaded file) the rejection is NOT routed through the catch block with
its local-file fallback; it propagates to the caller.  The model therefore
sends those paths to `Except.error`, while exceptions thrown before the
`return` (modelled by `selectFails`) reach the catch block and its
fallback. -/

/-- A row of the `rules` table as far as the staleness gate reads it:
`createdAt` is `timestamp("created_at").defaultNow()`, nullable, in ms. -/
structure RuleRow where
  createdAt : Option Int
deriving DecidableEq, Repr

/-- Result shape `{success: boolean, message: string}`. -/
structure UpdateResult where
  success : Bool
  message : String
deriving DecidableEq, Repr

inductive DownloadOutcome where
  | status (code : Nat)
  | netErr (msg : String)
deriving DecidableEq, Repr

/-- Outcome of `updateRulesFromFile()` (the bundled local rulebook):
either the file is missing (it throws before touching the database), or
`updateRulesDatabase` on it succeeds or throws. -/
inductive LocalFileOutcome where
  | missing
  | updateOk
  | updateFails (msg : String)
deriving DecidableEq, Repr

/-- `updateRulesFromFile` of rules-updater.ts. -/
def updateRulesFromFile : LocalFileOutcome → Except String Unit
  | LocalFileOutcome.missing => Except.error "Comprehensive rules file not found"
  | LocalFileOutcome.updateOk => Except.ok ()
  | LocalFileOutcome.updateFails m => Except.error m

/-- Outcomes of the external interactions of `updateRulesFromWotc`.
`table` is the current `rules` table; the staleness-gate select is
`db.select().from(rules).limit(1)` with no ordering, modelled as the first
row of the table. -/
structure WotcWorld where
  now : Int
  table : List RuleRow
  selectFails : Option String
  download : DownloadOutcome
  fileSave : Except String Unit
  processDownloaded : Except String Unit
  localFile : LocalFileOutcome

/-- Run result plus effect trace: whether `https.get` was issued and
whether `updateRulesDatabase` (which starts by deleting all rules) was
invoked. -/
structure WotcRun where
  result : Except String UpdateResult
  networkCalled : Bool
  dbUpdateInvoked : Bool
deriving DecidableEq, Repr

/-- The staleness comparison `daysSinceUpdate < 7`, where `daysSinceUpdate`
is `(Date.now() - lastUpdate.getTime()) / (1000 * 60 * 60 * 24)` (or the
default 30 when `createdAt` is null, which is never below 7).  In exact
arithmetic the division by the positive constant is eliminated:
`diff / 86400000 < 7` iff `diff < 7 * 86400000`. -/
def daysLtSeven (now : Int) (created : Option Int) : Bool :=
  match created with
  | some t => decide (now - t < 7 * 86400000)
  | none => false

/-- `Math.round(daysSinceUpdate)` (half rounds up):
`⌊diff / 86400000 + 1 / 2⌋ = ⌊(2 * diff + 86400000) / 172800000⌋`,
written with integer floor division; 30 for a null `createdAt`. -/
def roundedDays (now : Int) (created : Option Int) : Int :=
  match created with
  | some t => (2 * (now - t) + 86400000).fdiv 172800000
  | none => 30

def skipMessage (days : Int) : String :=
  "Rules were updated " ++ toString days ++ " days ago. Skipping update."

/-- The staleness gate: a first row exists and is younger than 7 days. -/
def wotcGate (w : WotcWorld) : Bool :=
  match (w.table.take 1).head? with
  | some row => daysLtSeven w.now row.createdAt
  | none => false

/-- The catch block of `updateRulesFromWotc`: fall back to the local file. -/
def wotcFallback (w : WotcWorld) (errMsg : String) : Except String UpdateResult :=
  match updateRulesFromFile w.localFile with
  | Except.ok _ =>
    Except.ok ⟨true, "Used local comprehensive rules file as fallback"⟩
  | Except.error fe =>
    Except.ok ⟨false, "Failed to update rules: " ++ errMsg ++ ". Fallback also failed: " ++ fe⟩

/-- Whether the fallback path invokes `updateRulesDatabase` (it does unless
the local file is missing). -/
def localInvoked (w : WotcWorld) : Bool :=
  match w.localFile with
  | LocalFileOutcome.missing => false
  | _ => true

/-- The promise returned from inside the try block: download, save to the
temp file, process.  Its rejections propagate to the caller. -/
def wotcDownload (w : WotcWorld) : WotcRun :=
  match w.download with
  | DownloadOutcome.netErr m =>
    ⟨Except.error ("Network error downloading rules: " ++ m), true, false⟩
  | DownloadOutcome.status c =>
    if c = 200 then
      match w.fileSave with
      | Except.error m => ⟨Except.error ("Failed to save rules file: " ++ m), true, false⟩
      | Except.ok _ =>
        match w.processDownloaded with
        | Except.ok _ =>
          ⟨Except.ok ⟨true, "Comprehensive rules updated successfully from official source"⟩,
            true, true⟩
        | Except.error m =>
          ⟨Except.error ("Failed to process downloaded rules: " ++ m), true, true⟩
    else ⟨Except.error ("Failed to download rules. HTTP status: " ++ toString c), true, false⟩

/-- `updateRulesFromWotc` of rules-updater.ts. -/
def updateRulesFromWotc (w : WotcWorld) : WotcRun :=
  match w.selectFails with
  | some e => ⟨wotcFallback w e, false, localInvoked w⟩
  | none =>
    match (w.table.take 1).head? with
    | some row =>
      if daysLtSeven w.now row.createdAt then
        ⟨Except.ok ⟨true, skipMessage (roundedDays w.now row.createdAt)⟩, false, false⟩
      else wotcDownload w
    | none => wotcDownload w

/-! ## updateCardDatabase (cron/database-update.ts)

The whole body is wrapped in one try/catch that converts every exception
into `{success: false, message: "Error updating database: ..."}`.  The
rules sub-step has its own inner catch; the metadata upsert runs only when
the card refresh reported success. -/

/-- The `db_metadata` row (`id = "card_database"`): `last_updated`
(nullable timestamp, ms), `total_cards`, `description`. -/
structure MetaRow where
  last_updated : Option Int
  total_cards : Nat
  description : String
deriving DecidableEq, Repr

/-- Outcomes of the external interactions of `updateCardDatabase`:
the metadata select, `mtgJsonService.completeCardDatabaseUpdate()`
(`Except.error` models a thrown exception), the embedded
`updateRulesFromWotc` world, the metadata upsert, and the card count. -/
structure CardWorld where
  now : Int
  metaRow : Option MetaRow
  selectMetaFails : Option String
  cardUpdate : Except String UpdateResult
  wotc : WotcWorld
  upsertFails : Option String
  cardCount : Nat

/-- Run result plus effect trace.  (On the normal path the source result
additionally carries `cardResult`/`rulesResult` fields, and on the
early-skip path a `last_updated` field; `result` models the shared
`{success, message}` part.) -/
structure CardRun where
  result : UpdateResult
  ranCardUpdate : Bool
  ranRulesUpdate : Bool
  wroteMetadata : Option MetaRow
deriving DecidableEq, Repr

/-- The comparison `hoursSinceLastUpdate < 24`, where the hour count is
`timeSinceLastUpdate / (1000 * 60 * 60)`; the division by the positive
constant is eliminated: `diff / 3600000 < 24` iff `diff < 24 * 3600000`. -/
def hoursLt24 (now t : Int) : Bool := decide (now - t < 24 * 3600000)

/-- The value of `rulesResult` after the inner try/catch around
`await updateRulesFromWotc()`. -/
def rulesResultOf (w : CardWorld) : UpdateResult :=
  match (updateRulesFromWotc w.wotc).result with
  | Except.ok r => r
  | Except.error e => ⟨false, "Rules update failed: " ++ e⟩

/-- The part of `updateCardDatabase` after the staleness gate. -/
def runFullUpdate (w : CardWorld) : CardRun :=
  match w.cardUpdate with
  | Except.error e =>
    ⟨⟨false, "Error updating database: " ++ e⟩, true, false, none⟩
  | Except.ok cardResult =>
    let rulesResult := rulesResultOf w
    let combined : UpdateResult :=
      ⟨cardResult.success && rulesResult.success,
        "Cards: " ++ cardResult.message ++ ". Rules: " ++ rulesResult.message⟩
    if cardResult.success then
      match w.upsertFails with
      | some e => ⟨⟨false, "Error updating database: " ++ e⟩, true, true, none⟩
      | none =>
        ⟨combined, true, true,
          some ⟨some w.now, w.cardCount, cardResult.message ++ ". " ++ rulesResult.message⟩⟩
    else ⟨combined, true, true, none⟩

/-- `updateCardDatabase` of cron/database-update.ts. -/
def updateCardDatabase (w : CardWorld) : CardRun :=
  match w.selectMetaFails with
  | some e => ⟨⟨false, "Error updating database: " ++ e⟩, false, false, none⟩
  | none =>
    match w.metaRow with
    | some row =>
      match row.last_updated with
      | some t =>
        if hoursLt24 w.now t then
          ⟨⟨true, "Database is up to date"⟩, false, false, none⟩
        else runFullUpdate w
      | none => runFullUpdate w
    | none => runFullUpdate w

/-! ## The /api/rulings/ask handler (conversation history) -/

structure ChatMsg where
  role : String
  content : String
deriving DecidableEq, Repr

inductive AskOutcome where
  | badRequest
  | answered (answer : String)
  | failed (err : String)
deriving DecidableEq, Repr

/-- One request to `/api/rulings/ask`: `question` is the request body field
(absent means the 400 path), `ruling` the outcome of `getCardRuling`
(`Except.error` models a thrown exception, answered by the catch with a
500).  Returns the new module-level `currentConversation` and the
response. -/
def askHandler (conv : List ChatMsg) (question : Option String)
    (ruling : Except String String) : List ChatMsg × AskOutcome :=
  match question with
  | none => (conv, AskOutcome.badRequest)
  | some q =>
    let conv1 := conv ++ [⟨"user", q⟩]
    match ruling with
    | Except.error e => (conv1, AskOutcome.failed e)
    | Except.ok a =>
      let conv2 := conv1 ++ [⟨"assistant", a⟩]
      let conv3 := if 10 < conv2.length then conv2.drop (conv2.length - 10) else conv2
      (conv3, AskOutcome.answered a)

/-- A sequence of requests against the module-level conversation state,
starting from the initial empty history. -/
def runRequests (reqs : List (Option String × Except String String)) : List ChatMsg :=
  reqs.foldl (fun conv r => (askHandler conv r.1 r.2).1) []

/-! # Theorems -/

/-! ## Small helper lemmas -/

theorem dropLast_cons_ne {β : Type _} {l : List β} (h : l ≠ []) (a : β) :
    (a :: l).dropLast = a :: l.dropLast := by
  cases l with
  | nil => exact absurd rfl h
  | cons x xs => rfl

theorem dropToAnchor_eq_none {t : List Char} (h : hasSeg gameAnchor t = false) :
    dropToAnchor t = none := by
  induction t with
  | nil => rfl
  | cons c t ih =>
    rw [hasSeg, Bool.or_eq_false_iff] at h
    simp [dropToAnchor, h.1, ih h.2]

/-! ## Claim C8 -/

/-- Claim C8 (confirmed): for every input text that does not contain the
anchor string "1. Game Concepts", the parser returns an empty sequence of
rule records (and, being a total function, raises no error). -/
theorem c8_no_anchor (text : List Char) (h : hasSeg gameAnchor text = false) :
    parseComprehensiveRules text = [] := by
  simp [parseComprehensiveRules, dropToAnchor_eq_none h]

/-- Witness for C8 at a concrete anchor-free text. -/
theorem c8_witness :
    hasSeg gameAnchor (("2. Other content only").toList) = false ∧
      parseComprehensiveRules (("2. Other content only").toList) = [] :=
  ⟨by decide, c8_no_anchor _ (by decide)⟩

/-! ## Claims C7 and C9: batching and the delete-then-reinsert lifecycle -/

theorem runInsertBatches_ok {ins : Nat → Option String} (h : ∀ i, ins i = none) :
    ∀ (bs : List (List RuleEntry)) (i : Nat) (tbl : List RuleEntry),
      runInsertBatches ins i bs tbl =
        ⟨Except.ok (), tbl ++ bs.flatten, bs.map DbEffect.insertRules⟩ := by
  intro bs
  induction bs with
  | nil => intro i tbl; simp [runInsertBatches]
  | cons b bs ih => intro i tbl; simp [runInsertBatches, h i, ih]

theorem batchesF_nil {α : Type} (f : Nat) : batchesF f ([] : List α) = [] := by
  cases f <;> simp [batchesF]

theorem batchesF_step {α : Type} (f : Nat) {l : List α} (h : l ≠ []) :
    batchesF (f + 1) l = l.take 100 :: batchesF f (l.drop 100) := by
  have he : l.isEmpty = false := by
    cases l with
    | nil => exact absurd rfl h
    | cons x xs => rfl
  simp [batchesF, he]

theorem batchesF_flatten {α : Type} :
    ∀ (f : Nat) (l : List α), l.length ≤ f → (batchesF f l).flatten = l := by
  intro f
  induction f with
  | zero =>
    intro l hl
    have : l = [] := List.eq_nil_of_length_eq_zero (Nat.le_zero.mp hl)
    subst this
    simp [batchesF]
  | succ f ih =>
    intro l hl
    by_cases h : l = []
    · subst h; simp [batchesF_nil]
    · have hp := List.length_pos.mpr h
      have hlen : (l.drop 100).length ≤ f := by
        simp only [List.length_drop]; omega
      rw [batchesF_step f h]
      simp only [List.flatten_cons]
      rw [ih (l.drop 100) hlen]
      exact List.take_append_drop 100 l

theorem batchesF_dropLast {α : Type} :
    ∀ (f : Nat) (l : List α), l.length ≤ f →
      ∀ bt ∈ (batchesF f l).dropLast, bt.length = 100 := by
  intro f
  induction f with
  | zero => intro l hl bt hbt; simp [batchesF] at hbt
  | succ f ih =>
    intro l hl bt hbt
    by_cases h : l = []
    · subst h; rw [batchesF_nil] at hbt; simp at hbt
    · rw [batchesF_step f h] at hbt
      by_cases hr : batchesF f (l.drop 100) = []
      · rw [hr] at hbt; simp at hbt
      · have hp := List.length_pos.mpr h
        have hlen : (l.drop 100).length ≤ f := by
          simp only [List.length_drop]; omega
        rw [dropLast_cons_ne hr] at hbt
        rcases List.mem_cons.mp hbt with rfl | hbt'
        · have hd : l.drop 100 ≠ [] := by
            intro e; rw [e, batchesF_nil] at hr; exact hr rfl
          have hlong : 100 < l.length := by
            by_contra hc
            exact hd (List.drop_eq_nil_of_le (by omega))
          simp only [List.length_take]
          omega
        · exact ih (l.drop 100) hlen bt hbt'

theorem batches_map_length_250 {α : Type} (l : List α) (h : l.length = 250) :
    (batches l).map List.length = [100, 100, 50] := by
  have h0 : l ≠ [] := by intro e; rw [e] at h; simp at h
  have h1 : l.drop 100 ≠ [] := by
    intro e; have := congrArg List.length e; simp [List.length_drop, h] at this
  have h2 : (l.drop 100).drop 100 ≠ [] := by
    intro e; have := congrArg List.length e; simp [List.length_drop, h] at this
  have h3 : ((l.drop 100).drop 100).drop 100 = [] := by
    apply List.drop_eq_nil_of_le; simp [List.length_drop, h]
  rw [batches, h]
  rw [show (250 : Nat) = 249 + 1 from rfl, batchesF_step 249 h0]
  rw [show (249 : Nat) = 248 + 1 from rfl, batchesF_step 248 h1]
  rw [show (248 : Nat) = 247 + 1 from rfl, batchesF_step 247 h2]
  rw [h3, batchesF_nil]
  simp [List.length_take, List.length_drop, h]

/-- Claim C7 (confirmed): `updateRulesDatabase` issues one delete followed
by the batch inserts of the parsed rules in fixed-size batches of 100:
every batch except possibly the last has exactly 100 records, the batches
concatenate to the full parsed sequence in order, and an input of 250
records yields exactly 3 batches of sizes 100, 100, 50. -/
theorem c7_batching (w : IngestWorld) (text : List Char) (table l : List RuleEntry)
    (hf : w.file = Except.ok text) (hd : w.deleteFails = none)
    (hi : ∀ i, w.insertFails i = none) (hl : l.length = 250) :
    (updateRulesDatabase w table).effects =
        DbEffect.deleteRules ::
          (batches (parseComprehensiveRules text)).map DbEffect.insertRules ∧
      (batches l).map List.length = [100, 100, 50] ∧
      ∀ m : List RuleEntry, (batches m).flatten = m ∧
        ∀ bt ∈ (batches m).dropLast, bt.length = 100 := by
  refine ⟨?_, batches_map_length_250 l hl, fun m => ⟨?_, ?_⟩⟩
  · simp [updateRulesDatabase, hf, hd, runInsertBatches_ok hi]
  · exact batchesF_flatten m.length m le_rfl
  · exact batchesF_dropLast m.length m le_rfl

/-- Witness for C7 at a concrete world and a list of 250 records. -/
theorem c7_witness :
    (List.replicate 250 (⟨[], [], [], [], [], [], [], []⟩ : RuleEntry)).length = 250 ∧
      ((updateRulesDatabase ⟨Except.ok [], none, fun _ => none⟩ []).effects =
          DbEffect.deleteRules ::
            (batches (parseComprehensiveRules [])).map DbEffect.insertRules ∧
        (batches (List.replicate 250 (⟨[], [], [], [], [], [], [], []⟩ : RuleEntry))).map
            List.length = [100, 100, 50] ∧
        ∀ m : List RuleEntry, (batches m).flatten = m ∧
          ∀ bt ∈ (batches m).dropLast, bt.length = 100) :=
  ⟨by rw [List.length_replicate],
    c7_batching _ _ _ _ rfl rfl (fun _ => rfl) (by rw [List.length_replicate])⟩

/-- Claim C9 (confirmed): when the source file reads successfully but
parsing yields zero records, `updateRulesDatabase` completes without error
having performed only the delete: the previously persisted rules are
destroyed, nothing is inserted, and the rule table is left empty. -/
theorem c9_wipes_table (w : IngestWorld) (text : List Char) (table : List RuleEntry)
    (hf : w.file = Except.ok text) (hd : w.deleteFails = none)
    (hp : parseComprehensiveRules text = []) :
    updateRulesDatabase w table = ⟨Except.ok (), [], [DbEffect.deleteRules]⟩ := by
  simp [updateRulesDatabase, hf, hd, hp, batches, batchesF, runInsertBatches]

/-- Witness for C9: an anchor-free file against a nonempty rules table. -/
theorem c9_witness :
    parseComprehensiveRules (("file without the anchor").toList) = [] ∧
      updateRulesDatabase ⟨Except.ok (("file without the anchor").toList), none, fun _ => none⟩
          [⟨[], [], [], [], [], [], [], []⟩] =
        ⟨Except.ok (), [], [DbEffect.deleteRules]⟩ := by
  have hp : parseComprehensiveRules (("file without the anchor").toList) = [] := by decide
  exact ⟨hp, c9_wipes_table _ _ _ rfl rfl hp⟩

/-! ## Claim C5: the 24-hour staleness gate of updateCardDatabase -/

/-- Claim C5 (confirmed): when the persisted metadata row's `last_updated`
is less than 24 hours old, `updateCardDatabase` returns
`{success: true, message: "Database is up to date"}` without invoking the
card refresh or the rules refresh and without writing any metadata. -/
theorem c5_skips_when_fresh (w : CardWorld) (row : MetaRow) (t : Int)
    (hs : w.selectMetaFails = none) (hm : w.metaRow = some row)
    (hl : row.last_updated = some t) (hfresh : hoursLt24 w.now t = true) :
    updateCardDatabase w = ⟨⟨true, "Database is up to date"⟩, false, false, none⟩ := by
  simp [updateCardDatabase, hs, hm, hl, hfresh]

/-- Witness for C5 at a concrete world whose metadata is 0 hours old. -/
theorem c5_witness :
    hoursLt24 0 0 = true ∧
      updateCardDatabase ⟨0, some ⟨some 0, 0, ""⟩, none, Except.ok ⟨true, "cards"⟩,
          ⟨0, [], none, DownloadOutcome.status 200, Except.ok (), Except.ok (),
            LocalFileOutcome.updateOk⟩, none, 0⟩ =
        ⟨⟨true, "Database is up to date"⟩, false, false, none⟩ :=
  ⟨by decide, c5_skips_when_fresh _ _ _ rfl rfl rfl (by decide)⟩

/-! ## Claim C10: the /api/rulings/ask conversation history -/

/-- Claim C10 counterexample: after five successfully answered requests the
history holds 10 messages; a sixth request whose `getCardRuling` call
throws appends the question on the error path without truncating, leaving
11 messages in the module-level history — more than the 10 the claim
allows after every request. -/
theorem c10_counterexample :
    (runRequests
        ((List.replicate 5 ((some "q" : Option String), (Except.ok "a" : Except String String))) ++
          [(some "q", Except.error "llm failure")])).length = 11 := by
  decide

/-- Claim C10 as amended: a request that completes successfully appends the
question and the answer and truncates, so the history it leaves holds at
most 10 messages whatever its previous length; a request whose ruling call
fails appends the question without truncating. -/
theorem c10_amended (conv : List ChatMsg) (q a e : String) :
    (askHandler conv (some q) (Except.ok a)).1.length ≤ 10 ∧
      (askHandler conv (some q) (Except.error e)).1 = conv ++ [⟨"user", q⟩] := by
  refine ⟨?_, rfl⟩
  simp only [askHandler]
  split
  · simp only [List.length_drop]
    omega
  · next h => omega

/-! ## Claim C2: card-refresh failure inside updateCardDatabase -/

/-- Claim C2 counterexample: a run whose card refresh reports failure while
the rules refresh succeeds.  The rules sub-step still runs
(`ranRulesUpdate = true`) and the combined flag is false, but the metadata
row is NOT upserted (`wroteMetadata = none`), refuting the claim that the
metadata row is still upserted with whatever information is available. -/
theorem c2_counterexample :
    updateCardDatabase ⟨0, none, none, Except.ok ⟨false, "card refresh failed"⟩,
        ⟨0, [], none, DownloadOutcome.status 200, Except.ok (), Except.ok (),
          LocalFileOutcome.updateOk⟩, none, 0⟩ =
      ⟨⟨false,
          "Cards: card refresh failed. Rules: Comprehensive rules updated successfully from official source"⟩,
        true, true, none⟩ := by
  decide

/-- Claim C2 as amended: when the update proceeds past the staleness gate
and the card refresh reports failure, the rules sub-step still runs and
the returned combined success flag is the logical AND of the card result's
and the rules result's success — but the metadata row is not upserted (it
is written only when the card refresh succeeds). -/
theorem c2_amended (w : CardWorld) (cr : UpdateResult)
    (hs : w.selectMetaFails = none) (hm : w.metaRow = none)
    (hc : w.cardUpdate = Except.ok cr) (hfail : cr.success = false) :
    (updateCardDatabase w).ranRulesUpdate = true ∧
      (updateCardDatabase w).wroteMetadata = none ∧
      (updateCardDatabase w).result.success = (cr.success && (rulesResultOf w).success) := by
  have hrun : updateCardDatabase w = runFullUpdate w := by
    simp [updateCardDatabase, hs, hm]
  rw [hrun, runFullUpdate, hc]
  simp [hfail]

/-- Witness for the amended C2 at a concrete world. -/
theorem c2_witness :
    (updateCardDatabase ⟨0, none, none, Except.ok ⟨false, "cards down"⟩,
          ⟨0, [], some "select failed", DownloadOutcome.status 200, Except.ok (), Except.ok (),
            LocalFileOutcome.missing⟩, none, 0⟩).ranRulesUpdate = true ∧
      (updateCardDatabase ⟨0, none, none, Except.ok ⟨false, "cards down"⟩,
          ⟨0, [], some "select failed", DownloadOutcome.status 200, Except.ok (), Except.ok (),
            LocalFileOutcome.missing⟩, none, 0⟩).wroteMetadata = none ∧
      (updateCardDatabase ⟨0, none, none, Except.ok ⟨false, "cards down"⟩,
          ⟨0, [], some "select failed", DownloadOutcome.status 200, Except.ok (), Except.ok (),
            LocalFileOutcome.missing⟩, none, 0⟩).result.success =
        ((⟨false, "cards down"⟩ : UpdateResult).success &&
          (rulesResultOf ⟨0, none, none, Except.ok ⟨false, "cards down"⟩,
            ⟨0, [], some "select failed", DownloadOutcome.status 200, Except.ok (), Except.ok (),
              LocalFileOutcome.missing⟩, none, 0⟩).success) :=
  c2_amended _ _ rfl rfl rfl rfl

/-! ## Claims C1 and C3: updateRulesFromWotc -/

theorem wotcFallback_ok (w : WotcWorld) (e : String) :
    ∃ r, wotcFallback w e = Except.ok r := by
  cases h : updateRulesFromFile w.localFile with
  | ok u => exact ⟨_, by rw [wotcFallback, h]⟩
  | error f => exact ⟨_, by rw [wotcFallback, h]⟩

/-- When the staleness-gate select succeeds and the gate does not fire, the
run is the download promise. -/
theorem wotc_proceeds (w : WotcWorld) (hs : w.selectFails = none)
    (hg : wotcGate w = false) : updateRulesFromWotc w = wotcDownload w := by
  rw [updateRulesFromWotc, hs]
  cases hh : (w.table.take 1).head? with
  | none => simp [hh]
  | some row =>
    rw [wotcGate, hh] at hg
    have hg' : daysLtSeven w.now row.createdAt = false := hg
    simp [hh, hg']

/-- Claim C1 counterexample: with an HTTP status of 404 the promise
returned by `updateRulesFromWotc` rejects — the error propagates to the
caller instead of being converted to a `{success, message}` result — and
the local-file fallback is not invoked (`dbUpdateInvoked = false` although
the world's local file would have been available). -/
theorem c1_counterexample :
    updateRulesFromWotc ⟨0, [], none, DownloadOutcome.status 404, Except.ok (), Except.ok (),
        LocalFileOutcome.updateOk⟩ =
      ⟨Except.error "Failed to download rules. HTTP status: 404", true, false⟩ := by
  decide

/-- Claim C1 as amended: `updateCardDatabase` converts every failure
(including a thrown metadata select) into a structured result;
`updateRulesFromWotc` converts failures thrown before the download (the
staleness-gate select) into a structured result via the local-file
fallback, without any network call — but failures of the download phase
itself (HTTP status other than 200, network error, processing failure of
the downloaded file) reject the returned promise, propagate to the caller,
and do not trigger the local-file fallback. -/
theorem c1_amended (wc : CardWorld) (w1 w2 w3 w4 : WotcWorld)
    (ce e m fe : String) (c : Nat)
    (hwc : wc.selectMetaFails = some ce)
    (h1 : w1.selectFails = some e)
    (h2s : w2.selectFails = none) (h2g : wotcGate w2 = false)
    (h2d : w2.download = DownloadOutcome.status c) (h2c : c ≠ 200)
    (h3s : w3.selectFails = none) (h3g : wotcGate w3 = false)
    (h3d : w3.download = DownloadOutcome.netErr m)
    (h4s : w4.selectFails = none) (h4g : wotcGate w4 = false)
    (h4d : w4.download = DownloadOutcome.status 200)
    (h4f : w4.fileSave = Except.ok ()) (h4p : w4.processDownloaded = Except.error fe) :
    (updateCardDatabase wc).result = ⟨false, "Error updating database: " ++ ce⟩ ∧
      (∃ r, (updateRulesFromWotc w1).result = Except.ok r) ∧
      (updateRulesFromWotc w1).networkCalled = false ∧
      (updateRulesFromWotc w2).result =
        Except.error ("Failed to download rules. HTTP status: " ++ toString c) ∧
      (updateRulesFromWotc w2).dbUpdateInvoked = false ∧
      (updateRulesFromWotc w3).result =
        Except.error ("Network error downloading rules: " ++ m) ∧
      (updateRulesFromWotc w4).result =
        Except.error ("Failed to process downloaded rules: " ++ fe) := by
  refine ⟨?_, ?_, ?_, ?_, ?_, ?_, ?_⟩
  · simp [updateCardDatabase, hwc]
  · simp only [updateRulesFromWotc, h1]
    exact wotcFallback_ok w1 e
  · simp [updateRulesFromWotc, h1]
  · rw [wotc_proceeds w2 h2s h2g]
    simp [wotcDownload, h2d, h2c]
  · rw [wotc_proceeds w2 h2s h2g]
    simp [wotcDownload, h2d, h2c]
  · rw [wotc_proceeds w3 h3s h3g]
    simp [wotcDownload, h3d]
  · rw [wotc_proceeds w4 h4s h4g]
    simp [wotcDownload, h4d, h4f, h4p]

/-- Witness for the amended C1 at concrete worlds covering each path. -/
theorem c1_witness :
    (updateCardDatabase ⟨0, none, some "db down", Except.ok ⟨true, "c"⟩,
          ⟨0, [], none, DownloadOutcome.status 200, Except.ok (), Except.ok (),
            LocalFileOutcome.updateOk⟩, none, 0⟩).result =
        ⟨false, "Error updating database: " ++ "db down"⟩ ∧
      (∃ r, (updateRulesFromWotc ⟨0, [], some "select boom", DownloadOutcome.status 200,
          Except.ok (), Except.ok (), LocalFileOutcome.updateOk⟩).result = Except.ok r) ∧
      (updateRulesFromWotc ⟨0, [], some "select boom", DownloadOutcome.status 200,
          Except.ok (), Except.ok (), LocalFileOutcome.updateOk⟩).networkCalled = false ∧
      (updateRulesFromWotc ⟨0, [], none, DownloadOutcome.status 404, Except.ok (), Except.ok (),
          LocalFileOutcome.updateOk⟩).result =
        Except.error ("Failed to download rules. HTTP status: " ++ toString 404) ∧
      (updateRulesFromWotc ⟨0, [], none, DownloadOutcome.status 404, Except.ok (), Except.ok (),
          LocalFileOutcome.updateOk⟩).dbUpdateInvoked = false ∧
      (updateRulesFromWotc ⟨0, [], none, DownloadOutcome.netErr "timeout", Except.ok (),
          Except.ok (), LocalFileOutcome.updateOk⟩).result =
        Except.error ("Network error downloading rules: " ++ "timeout") ∧
      (updateRulesFromWotc ⟨0, [], none, DownloadOutcome.status 200, Except.ok (),
          Except.error "bad file", LocalFileOutcome.updateOk⟩).result =
        Except.error ("Failed to process downloaded rules: " ++ "bad file") :=
  c1_amended _ _ _ _ _ "db down" "select boom" "timeout" "bad file" 404
    rfl rfl rfl (by decide) rfl (by decide) rfl (by decide) rfl rfl (by decide) rfl rfl rfl

/-- Claim C3 counterexample: the staleness gate reads an arbitrary row
(`limit(1)` with no ordering, modelled as the first row), not the most
recently created one.  Here the newest rule record is exactly 3 days old
(`now - createdAt = 3 * 86400000` ms), yet the run downloads over the
network and performs a full update instead of skipping. -/
theorem c3_counterexample :
    (⟨some 2332800000⟩ : RuleRow) ∈
        ([⟨some 0⟩, ⟨some 2332800000⟩] : List RuleRow) ∧
      (2592000000 : Int) - 2332800000 = 3 * 86400000 ∧
      updateRulesFromWotc ⟨2592000000, [⟨some 0⟩, ⟨some 2332800000⟩], none,
          DownloadOutcome.status 200, Except.ok (), Except.ok (),
          LocalFileOutcome.updateOk⟩ =
        ⟨Except.ok ⟨true, "Comprehensive rules updated successfully from official source"⟩,
          true, true⟩ := by
  refine ⟨by decide, by decide, by decide⟩

/-- Claim C3 as amended: the staleness gate checks the age of an arbitrary
existing rule record (the first row returned by the unordered `limit(1)`
select, modelled as the head of the table), not of the most recently
created one.  Whenever that sampled record is younger than 7 days, the
call returns success with a message ending in "Skipping update." and
performs no network call and no database modification. -/
theorem c3_amended (w : WotcWorld) (row : RuleRow)
    (hs : w.selectFails = none) (hh : (w.table.take 1).head? = some row)
    (hfresh : daysLtSeven w.now row.createdAt = true) :
    updateRulesFromWotc w =
        ⟨Except.ok ⟨true, skipMessage (roundedDays w.now row.createdAt)⟩, false, false⟩ ∧
      ∃ p, skipMessage (roundedDays w.now row.createdAt) =
          p ++ " days ago. Skipping update." := by
  constructor
  · rw [updateRulesFromWotc, hs]
    simp [hh, hfresh]
  · exact ⟨_, rfl⟩

/-- Witness for the amended C3 at a concrete world whose sampled row is 3
days old. -/
theorem c3_witness :
    updateRulesFromWotc ⟨259200000, [⟨some 0⟩], none, DownloadOutcome.status 200,
          Except.ok (), Except.ok (), LocalFileOutcome.updateOk⟩ =
        ⟨Except.ok ⟨true, skipMessage (roundedDays 259200000 (some 0))⟩, false, false⟩ ∧
      ∃ p, skipMessage (roundedDays 259200000 (some 0)) =
          p ++ " days ago. Skipping update." :=
  c3_amended _ _ rfl rfl (by decide)

/-! ## Claim C6: example extraction in createRuleEntry -/

theorem nil_isPrefixOf (l : List Char) : ([] : List Char).isPrefixOf l = true := by
  cases l <;> rfl

theorem isPrefixOf_append_self : ∀ (p r : List Char), p.isPrefixOf (p ++ r) = true
  | [], r => nil_isPrefixOf r
  | c :: p, r => by
    show (c == c && p.isPrefixOf (p ++ r)) = true
    simp [isPrefixOf_append_self p r]

theorem isPrefixOf_append_left :
    ∀ (p a x : List Char), p.length ≤ a.length →
      p.isPrefixOf (a ++ x) = p.isPrefixOf a
  | [], a, x, _ => by rw [nil_isPrefixOf, nil_isPrefixOf]
  | c :: p, [], x, h => by simp at h
  | c :: p, b :: a, x, h => by
    show (c == b && p.isPrefixOf (a ++ x)) = (c == b && p.isPrefixOf a)
    rw [isPrefixOf_append_left p a x (by simpa using h)]

theorem eq_take_of_isPrefixOf :
    ∀ {p l : List Char}, p.isPrefixOf l = true → p = l.take p.length
  | [], _, _ => rfl
  | c :: p, [], h => by simp [List.isPrefixOf] at h
  | c :: p, b :: l, h => by
    have h' : (c == b && p.isPrefixOf l) = true := h
    simp only [Bool.and_eq_true, beq_iff_eq] at h'
    simp only [List.length_cons, List.take_succ_cons]
    rw [← h'.1, ← eq_take_of_isPrefixOf h'.2]

theorem hasSeg_of_isPrefixOf {p a : List Char} (hne : a ≠ []) (h : p.isPrefixOf a = true) :
    hasSeg p a = true := by
  cases a with
  | nil => exact absurd rfl hne
  | cons c t => simp [hasSeg, h]

theorem exampleLit_eq : exampleLit = ['E', 'x', 'a', 'm', 'p', 'l', 'e', ':'] := rfl

theorem exampleLit_border_free :
    ∀ j, j < 8 → 1 ≤ j → exampleLit.drop j ≠ exampleLit.take (8 - j) := by
  decide

/-- "Example:" has no nontrivial border, so no occurrence of it can start
inside a clean prefix `a` and overlap the occurrence that follows `a`. -/
theorem prefix_no_overlap (a t : List Char) (hne : a ≠ [])
    (hA : hasSeg exampleLit a = false) :
    exampleLit.isPrefixOf (a ++ (exampleLit ++ t)) = false := by
  by_contra hc
  rw [Bool.not_eq_false] at hc
  by_cases hl : 8 ≤ a.length
  · rw [isPrefixOf_append_left exampleLit a (exampleLit ++ t) (by simpa using hl)] at hc
    rw [hasSeg_of_isPrefixOf hne hc] at hA
    exact absurd hA (by simp)
  · have hj : a.length < 8 := by omega
    have hj1 : 1 ≤ a.length := by
      cases a with
      | nil => exact absurd rfl hne
      | cons c s => simp
    have he := eq_take_of_isPrefixOf hc
    rw [show exampleLit.length = 8 from rfl] at he
    rw [List.take_append_eq_append_take, List.take_of_length_le (le_of_lt hj)] at he
    rw [List.take_append_eq_append_take] at he
    rw [show (8 - a.length) - exampleLit.length = 0 by
      rw [show exampleLit.length = 8 from rfl]; omega] at he
    rw [List.take_zero, List.append_nil] at he
    have hd := congrArg (List.drop a.length) he
    rw [List.drop_append_eq_append_drop, List.drop_length, Nat.sub_self, List.drop_zero,
      List.nil_append] at hd
    exact exampleLit_border_free a.length hj hj1 hd

theorem extractExamplesF_clean :
    ∀ (f : Nat) (B : List Char), hasSeg exampleLit B = false → extractExamplesF f B = [] := by
  intro f
  induction f with
  | zero => intro B h; cases B <;> rfl
  | succ f ih =>
    intro B h
    cases B with
    | nil => rfl
    | cons c t =>
      rw [hasSeg, Bool.or_eq_false_iff] at h
      simp [extractExamplesF, h.1, ih t h.2]

theorem removeExamplesF_clean :
    ∀ (f : Nat) (B : List Char), hasSeg exampleLit B = false → removeExamplesF f B = B := by
  intro f
  induction f with
  | zero => intro B h; cases B <;> rfl
  | succ f ih =>
    intro B h
    cases B with
    | nil => rfl
    | cons c t =>
      rw [hasSeg, Bool.or_eq_false_iff] at h
      simp [removeExamplesF, h.1, ih t h.2]

theorem extractExamplesF_scan (y : List Char) :
    ∀ (A : List Char) (g : Nat), hasSeg exampleLit A = false →
      extractExamplesF (A.length + g) (A ++ (exampleLit ++ y)) =
        extractExamplesF g (exampleLit ++ y) := by
  intro A
  induction A with
  | nil => intro g h; simp
  | cons c A ih =>
    intro g h0
    have h := h0
    rw [hasSeg, Bool.or_eq_false_iff] at h
    have hpref : exampleLit.isPrefixOf (c :: (A ++ (exampleLit ++ y))) = false := by
      have := prefix_no_overlap (c :: A) y (by simp) h0
      simpa using this
    rw [show (c :: A).length + g = (A.length + g) + 1 by rw [List.length_cons]; omega]
    rw [List.cons_append]
    simp [extractExamplesF, hpref, ih g h.2]

theorem removeExamplesF_scan (y : List Char) :
    ∀ (A : List Char) (g : Nat), hasSeg exampleLit A = false →
      removeExamplesF (A.length + g) (A ++ (exampleLit ++ y)) =
        A ++ removeExamplesF g (exampleLit ++ y) := by
  intro A
  induction A with
  | nil => intro g h; simp
  | cons c A ih =>
    intro g h0
    have h := h0
    rw [hasSeg, Bool.or_eq_false_iff] at h
    have hpref : exampleLit.isPrefixOf (c :: (A ++ (exampleLit ++ y))) = false := by
      have := prefix_no_overlap (c :: A) y (by simp) h0
      simpa using this
    rw [show (c :: A).length + g = (A.length + g) + 1 by rw [List.length_cons]; omega]
    rw [List.cons_append]
    simp [removeExamplesF, hpref, ih g h.2]

theorem splitAtDot_clean :
    ∀ (X B : List Char), (∀ c ∈ X, (c == '.') = false) →
      splitAtDot (X ++ '.' :: B) = some (X, B)
  | [], B, _ => by simp [splitAtDot]
  | c :: X, B, h => by
    have hc : (c == '.') = false := h c (List.mem_cons_self c X)
    simp [splitAtDot, hc, splitAtDot_clean X B (fun d hd => h d (List.mem_cons_of_mem c hd))]

theorem trimList_append_dot (X : List Char)
    (hXh : ∀ c, X.head? = some c → isSpaceC c = false) :
    trimList (X ++ ['.']) = X ++ ['.'] := by
  have hfront : (X ++ ['.']).dropWhile isSpaceC = X ++ ['.'] := by
    cases X with
    | nil => decide
    | cons c t => exact List.dropWhile_cons_of_neg (by simp [hXh c rfl])
  have hrev : (X ++ ['.']).reverse = '.' :: X.reverse := by simp
  rw [trimList, hfront, hrev, List.dropWhile_cons_of_neg (by decide), ← hrev,
    List.reverse_reverse]

theorem dropWhile_space_nonspace_head (X B : List Char)
    (hXh : ∀ c, X.head? = some c → isSpaceC c = false) :
    (X ++ '.' :: B).dropWhile isSpaceC = X ++ '.' :: B := by
  cases X with
  | nil => exact List.dropWhile_cons_of_neg (by decide)
  | cons c t => exact List.dropWhile_cons_of_neg (by simp [hXh c rfl])

theorem extractExamplesF_occurrence (g : Nat) (X B : List Char)
    (hXh : ∀ c, X.head? = some c → isSpaceC c = false)
    (hXd : ∀ c ∈ X, (c == '.') = false)
    (hB : hasSeg exampleLit B = false) :
    extractExamplesF (g + 1) (exampleLit ++ (' ' :: (X ++ '.' :: B))) = [X ++ ['.']] := by
  have hpref : exampleLit.isPrefixOf (exampleLit ++ (' ' :: (X ++ '.' :: B))) = true :=
    isPrefixOf_append_self _ _
  rw [show exampleLit ++ (' ' :: (X ++ '.' :: B)) =
      'E' :: ('x' :: ('a' :: ('m' :: ('p' :: ('l' :: ('e' :: (':' ::
        (' ' :: (X ++ '.' :: B))))))))) from rfl] at hpref ⊢
  rw [extractExamplesF, if_pos hpref]
  simp only [List.drop_succ_cons, List.drop_zero]
  rw [List.dropWhile_cons_of_pos (by decide), dropWhile_space_nonspace_head X B hXh]
  rw [splitAtDot_clean X B hXd]
  simp only
  rw [trimList_append_dot X hXh, extractExamplesF_clean g B hB]

theorem removeExamplesF_occurrence (g : Nat) (X B : List Char)
    (hXh : ∀ c, X.head? = some c → isSpaceC c = false)
    (hXd : ∀ c ∈ X, (c == '.') = false)
    (hB : hasSeg exampleLit B = false) :
    removeExamplesF (g + 1) (exampleLit ++ (' ' :: (X ++ '.' :: B))) = B := by
  have hpref : exampleLit.isPrefixOf (exampleLit ++ (' ' :: (X ++ '.' :: B))) = true :=
    isPrefixOf_append_self _ _
  rw [show exampleLit ++ (' ' :: (X ++ '.' :: B)) =
      'E' :: ('x' :: ('a' :: ('m' :: ('p' :: ('l' :: ('e' :: (':' ::
        (' ' :: (X ++ '.' :: B))))))))) from rfl] at hpref ⊢
  rw [removeExamplesF, if_pos hpref]
  simp only [List.drop_succ_cons, List.drop_zero]
  rw [List.dropWhile_cons_of_pos (by decide), dropWhile_space_nonspace_head X B hXh]
  rw [splitAtDot_clean X B hXd]
  simp only
  exact removeExamplesF_clean g B hB

/-- Claim C6 counterexample: the body
"zzExamExample: a card is drawn.ple: a card is drawn." contains the
occurrence "Example: a card is drawn."; the produced record's examples
list does contain "a card is drawn.", but deleting the matched span glues
"zzExam" and "ple: ..." into a fresh "Example: a card is drawn." — the
record's text still CONTAINS the example occurrence, refuting the claim
that it is absent from `text`. -/
theorem c6_counterexample :
    hasSeg (("Example: a card is drawn.").toList)
        (("zzExamExample: a card is drawn.ple: a card is drawn.").toList) = true ∧
      (createRuleEntry (("100.1").toList)
          (("zzExamExample: a card is drawn.ple: a card is drawn.").toList)
          (("Ch").toList) (("Sec").toList)).examples = [("a card is drawn.").toList] ∧
      hasSeg (("Example: a card is drawn.").toList)
        ((createRuleEntry (("100.1").toList)
          (("zzExamExample: a card is drawn.ple: a card is drawn.").toList)
          (("Ch").toList) (("Sec").toList)).text) = true :=
  ⟨by decide, by decide, by decide⟩

/-- Claim C6 as amended: for a rule body of the form
`A ++ "Example: " ++ X ++ "." ++ B` where `X` is dot-free and does not
start with whitespace and the literal "Example:" occurs in neither `A` nor
`B`, the record's examples list is exactly `[X ++ "."]` and its text is
`trim(A ++ B)` — the matched occurrence is spliced out, but (as the
counterexample shows) the concatenation `A ++ B` may itself recreate the
substring, so the occurrence is not always absent from the text. -/
theorem c6_amended (A X B num ch sec : List Char)
    (hA : hasSeg exampleLit A = false) (hB : hasSeg exampleLit B = false)
    (hXh : ∀ c, X.head? = some c → isSpaceC c = false)
    (hXd : ∀ c ∈ X, (c == '.') = false) :
    (createRuleEntry num (A ++ (exampleLit ++ (' ' :: (X ++ '.' :: B)))) ch sec).examples
        = [X ++ ['.']] ∧
      (createRuleEntry num (A ++ (exampleLit ++ (' ' :: (X ++ '.' :: B)))) ch sec).text
        = trimList (A ++ B) := by
  have hlen : (A ++ (exampleLit ++ (' ' :: (X ++ '.' :: B)))).length
      = A.length + ((X.length + B.length + 9) + 1) := by
    simp only [List.length_append, List.length_cons, List.length_nil, exampleLit_eq]
    omega
  constructor
  · show extractExamples (A ++ (exampleLit ++ (' ' :: (X ++ '.' :: B)))) = [X ++ ['.']]
    rw [extractExamples, hlen,
      extractExamplesF_scan (' ' :: (X ++ '.' :: B)) A _ hA,
      extractExamplesF_occurrence (X.length + B.length + 9) X B hXh hXd hB]
  · show trimList (removeExamples (A ++ (exampleLit ++ (' ' :: (X ++ '.' :: B)))))
        = trimList (A ++ B)
    rw [removeExamples, hlen,
      removeExamplesF_scan (' ' :: (X ++ '.' :: B)) A _ hA,
      removeExamplesF_occurrence (X.length + B.length + 9) X B hXh hXd hB]

/-- Witness for the amended C6 at a concrete body. -/
theorem c6_witness :
    (createRuleEntry (("100.1").toList)
        ((("See rule five. ").toList) ++
          (exampleLit ++ (' ' :: ((("a card is drawn").toList) ++ '.' ::
            (("  All good").toList))))) (("Ch").toList) (("Sec").toList)).examples
        = [(("a card is drawn").toList) ++ ['.']] ∧
      (createRuleEntry (("100.1").toList)
        ((("See rule five. ").toList) ++
          (exampleLit ++ (' ' :: ((("a card is drawn").toList) ++ '.' ::
            (("  All good").toList))))) (("Ch").toList) (("Sec").toList)).text
        = trimList ((("See rule five. ").toList) ++ (("  All good").toList)) :=
  c6_amended _ _ _ _ _ _ (by decide) (by decide) (by decide) (by decide)

/-! ## Claim C4: what the parser guarantees about its output -/

theorem isSpaceC_eq_false_of_digit {c : Char} (h : isDigitC c = true) : isSpaceC c = false := by
  cases hs : isSpaceC c
  · rfl
  · exfalso
    have hsp : c = ' ' ∨ c = '\t' ∨ c = '\n' ∨ c = '\r' ∨ c = '\x0b' ∨ c = '\x0c' := by
      simpa [isSpaceC, or_assoc] using hs
    rcases hsp with rfl | rfl | rfl | rfl | rfl | rfl <;> revert h <;> decide

theorem isLowerC_eq_false_of_digit {c : Char} (h : isDigitC c = true) : isLowerC c = false := by
  cases hl : isLowerC c
  · rfl
  · exfalso
    simp only [isDigitC, Bool.and_eq_true, decide_eq_true_eq] at h
    simp only [isLowerC, Bool.and_eq_true, decide_eq_true_eq] at hl
    exact absurd (le_trans hl.1 h.2) (by decide)

theorem digit_ne_dotC {c : Char} (h : isDigitC c = true) : (c == '.') = false := by
  cases hd : c == '.'
  · rfl
  · exfalso
    rw [beq_iff_eq] at hd
    subst hd
    exact absurd h (by decide)

theorem mem_takeWhile_pred {p : Char → Bool} :
    ∀ {l : List Char} {c : Char}, c ∈ l.takeWhile p → p c = true := by
  intro l
  induction l with
  | nil => intro c h; simp at h
  | cons x xs ih =>
    intro c h
    by_cases hx : p x
    · rw [List.takeWhile_cons_of_pos hx] at h
      rcases List.mem_cons.mp h with rfl | h'
      · exact hx
      · exact ih h'
    · rw [List.takeWhile_cons_of_neg hx] at h
      simp at h

theorem mem_of_mem_dropWhileC {p : Char → Bool} :
    ∀ {l : List Char} {c : Char}, c ∈ l.dropWhile p → c ∈ l := by
  intro l
  induction l with
  | nil => intro c h; simp at h
  | cons x xs ih =>
    intro c h
    by_cases hx : p x
    · rw [List.dropWhile_cons_of_pos hx] at h
      exact List.mem_cons_of_mem x (ih h)
    · rwa [List.dropWhile_cons_of_neg hx] at h

theorem dropWhile_eq_nil_all {p : Char → Bool} :
    ∀ {l : List Char}, l.dropWhile p = [] → ∀ c ∈ l, p c = true := by
  intro l
  induction l with
  | nil => intro _ c h; simp at h
  | cons x xs ih =>
    intro hl c hc
    by_cases hx : p x
    · rw [List.dropWhile_cons_of_pos hx] at hl
      rcases List.mem_cons.mp hc with rfl | h'
      · exact hx
      · exact ih hl c h'
    · rw [List.dropWhile_cons_of_neg hx] at hl
      simp at hl

theorem head_dropWhile_false {p : Char → Bool} :
    ∀ {l : List Char} {c : Char} {t : List Char}, l.dropWhile p = c :: t → p c = false := by
  intro l
  induction l with
  | nil => intro c t h; simp at h
  | cons x xs ih =>
    intro c t h
    by_cases hx : p x
    · rw [List.dropWhile_cons_of_pos hx] at h
      exact ih h
    · rw [List.dropWhile_cons_of_neg hx] at h
      injection h with h1 _
      rw [← h1]
      exact Bool.eq_false_iff.mpr hx

theorem takeWhile_append_notHead {p : Char → Bool} (a : List Char) {b : List Char}
    (hb : ∀ c, b.head? = some c → p c = false) :
    (a ++ b).takeWhile p = a.takeWhile p := by
  induction a with
  | nil =>
    cases b with
    | nil => rfl
    | cons c t => simp [List.takeWhile_cons, hb c rfl]
  | cons x xs ih => by_cases hx : p x <;> simp [List.takeWhile_cons, hx, ih]

theorem dropWhile_append_notHead {p : Char → Bool} (a : List Char) {b : List Char}
    (hb : ∀ c, b.head? = some c → p c = false) :
    (a ++ b).dropWhile p = a.dropWhile p ++ b := by
  induction a with
  | nil =>
    cases b with
    | nil => rfl
    | cons c t => simp [List.dropWhile_cons, hb c rfl]
  | cons x xs ih => by_cases hx : p x <;> simp [List.dropWhile_cons, hx, ih]

/-- Structure of a successful `\d{3}\.\d+[a-z]*` match. -/
theorem parseRuleNumber_decomp {s n w : List Char} (h : parseRuleNumber s = some (n, w)) :
    ∃ c1 c2 c3 ds ls,
      s = c1 :: c2 :: c3 :: '.' :: (ds ++ (ls ++ w)) ∧
      n = c1 :: c2 :: c3 :: '.' :: (ds ++ ls) ∧
      isDigitC c1 = true ∧ isDigitC c2 = true ∧ isDigitC c3 = true ∧
      ds ≠ [] ∧ (∀ c ∈ ds, isDigitC c = true) ∧ (∀ c ∈ ls, isLowerC c = true) := by
  rcases s with _ | ⟨c1, _ | ⟨c2, _ | ⟨c3, _ | ⟨c4, rest⟩⟩⟩⟩
  · exact absurd h (by simp [parseRuleNumber])
  · exact absurd h (by simp [parseRuleNumber])
  · exact absurd h (by simp [parseRuleNumber])
  · exact absurd h (by simp [parseRuleNumber])
  simp only [parseRuleNumber] at h
  split_ifs at h with hcond hempty
  simp only [Option.some.injEq, Prod.mk.injEq] at h
  simp only [Bool.and_eq_true, beq_iff_eq] at hcond
  obtain ⟨⟨⟨h1, h2⟩, h3⟩, h4⟩ := hcond
  subst h4
  refine ⟨c1, c2, c3, rest.takeWhile isDigitC,
    (rest.dropWhile isDigitC).takeWhile isLowerC, ?_, ?_, h1, h2, h3, ?_, ?_, ?_⟩
  · rw [← h.2]
    rw [List.takeWhile_append_dropWhile, List.takeWhile_append_dropWhile]
  · exact h.1.symm
  · intro he
    rw [← List.isEmpty_iff] at he
    exact hempty he
  · intro c hc; exact mem_takeWhile_pred hc
  · intro c hc; exact mem_takeWhile_pred hc

theorem parseRuleNumDot_inv {s n r : List Char} (h : parseRuleNumDot s = some (n, r)) :
    parseRuleNumber s = some (n, '.' :: r) := by
  rw [parseRuleNumDot] at h
  cases hp : parseRuleNumber s with
  | none => rw [hp] at h; exact Option.noConfusion h
  | some pr =>
    rcases pr with ⟨num, rr⟩
    rw [hp] at h
    cases rr with
    | nil => exact absurd h (by simp)
    | cons c r' =>
      have h' : (if (c == '.') = true then some (num, r') else none) = some (n, r) := h
      by_cases hc : (c == '.') = true
      · rw [if_pos hc] at h'
        simp only [Option.some.injEq, Prod.mk.injEq] at h'
        rw [beq_iff_eq] at hc
        obtain ⟨h1, h2⟩ := h'
        subst h1; subst h2; subst hc
        rfl
      · rw [if_neg hc] at h'
        exact Option.noConfusion h'

theorem scanBody_decomp :
    ∀ {s b r : List Char}, scanBody s = some (b, r) →
      s = b ++ r ∧ ∀ c ∈ b, isDigitC c = false := by
  intro s
  induction s with
  | nil =>
    intro b r h
    simp only [scanBody, Option.some.injEq, Prod.mk.injEq] at h
    refine ⟨by rw [← h.1, ← h.2]; rfl, ?_⟩
    intro c hc; rw [← h.1] at hc; simp at hc
  | cons c cs ih =>
    intro b r h
    rw [scanBody] at h
    split_ifs at h with h1 h2
    · simp only [Option.some.injEq, Prod.mk.injEq] at h
      refine ⟨by rw [← h.1, ← h.2]; rfl, ?_⟩
      intro d hd; rw [← h.1] at hd; simp at hd
    · cases hs : scanBody cs with
      | none => rw [hs] at h; exact Option.noConfusion h
      | some pr =>
        rcases pr with ⟨b', r'⟩
        rw [hs] at h
        simp only [Option.some.injEq, Prod.mk.injEq] at h
        obtain ⟨hb, hr⟩ := h
        obtain ⟨hcs, hall⟩ := ih hs
        constructor
        · rw [← hb, ← hr, List.cons_append, ← hcs]
        · intro d hd
          rw [← hb] at hd
          rcases List.mem_cons.mp hd with rfl | hd'
          · exact Bool.eq_false_iff.mpr h2
          · exact hall d hd'

theorem scanBody_suffix {b : List Char} (hb : (parseRuleNumDot b).isSome = true) :
    ∀ (x p r : List Char), scanBody (x ++ b) = some (p, r) → ∃ x', r = x' ++ b := by
  intro x
  induction x with
  | nil =>
    intro p r h
    cases b with
    | nil => simp [parseRuleNumDot, parseRuleNumber] at hb
    | cons c cs =>
      rw [List.nil_append] at h
      rw [scanBody, if_pos hb] at h
      simp only [Option.some.injEq, Prod.mk.injEq] at h
      exact ⟨[], h.2.symm⟩
  | cons c x ih =>
    intro p r h
    rw [List.cons_append, scanBody] at h
    split_ifs at h with h1 h2
    · simp only [Option.some.injEq, Prod.mk.injEq] at h
      exact ⟨c :: x, h.2.symm⟩
    · cases hs : scanBody (x ++ b) with
      | none => rw [hs] at h; exact Option.noConfusion h
      | some pr =>
        rcases pr with ⟨p', r'⟩
        rw [hs] at h
        simp only [Option.some.injEq, Prod.mk.injEq] at h
        obtain ⟨x', hx'⟩ := ih p' r' hs
        exact ⟨x', by rw [← h.2, hx']⟩

/-- A successful rule-number-dot match that starts strictly before a
complete rule entry `B = d1 d2 d3 . dsb lsb . …` either stops before `B`
(its rest still carries all of `B`) or leaves a digit at the head of its
rest (which then fails the mandatory `\s+`). -/
theorem parseRuleNumDot_append_cases
    (d1 d2 d3 : Char) (dsb lsb rb : List Char)
    (hd1 : isDigitC d1 = true) (hd2 : isDigitC d2 = true) (hd3 : isDigitC d3 = true)
    (hdsb : dsb ≠ []) (hdsball : ∀ c ∈ dsb, isDigitC c = true) :
    ∀ (a n r₁ : List Char), a ≠ [] →
      parseRuleNumDot (a ++ (d1 :: d2 :: d3 :: '.' :: (dsb ++ (lsb ++ ('.' :: rb))))) =
        some (n, r₁) →
      (∃ a₁, r₁ = a₁ ++ (d1 :: d2 :: d3 :: '.' :: (dsb ++ (lsb ++ ('.' :: rb))))) ∨
        (∃ d r', r₁ = d :: r' ∧ isDigitC d = true) := by
  intro a n r₁ hne h
  rcases a with _ | ⟨x, _ | ⟨y, _ | ⟨z, _ | ⟨u, a4⟩⟩⟩⟩
  · exact absurd rfl hne
  · have hpn := parseRuleNumDot_inv h
    rw [List.cons_append, List.nil_append] at hpn
    simp [parseRuleNumber, digit_ne_dotC hd3] at hpn
  · have hpn := parseRuleNumDot_inv h
    simp only [List.cons_append, List.nil_append] at hpn
    simp [parseRuleNumber, digit_ne_dotC hd2] at hpn
  · have hpn := parseRuleNumDot_inv h
    simp only [List.cons_append, List.nil_append] at hpn
    simp [parseRuleNumber, digit_ne_dotC hd1] at hpn
  · have hpn := parseRuleNumDot_inv h
    simp only [List.cons_append] at hpn
    simp only [parseRuleNumber] at hpn
    split_ifs at hpn with hcond hempty
    simp only [Option.some.injEq, Prod.mk.injEq] at hpn
    have hrest := hpn.2
    by_cases hall : ∀ c ∈ a4, isDigitC c = true
    · -- the digit run crosses into B and stops at the dot after d3
      right
      have hdp : (a4 ++ (d1 :: d2 :: d3 :: '.' :: (dsb ++ (lsb ++ ('.' :: rb))))).dropWhile
          isDigitC = '.' :: (dsb ++ (lsb ++ ('.' :: rb))) := by
        rw [List.dropWhile_append_of_pos hall, List.dropWhile_cons_of_pos hd1,
          List.dropWhile_cons_of_pos hd2, List.dropWhile_cons_of_pos hd3,
          List.dropWhile_cons_of_neg (by decide)]
      rw [hdp, List.dropWhile_cons_of_neg (by decide)] at hrest
      cases dsb with
      | nil => exact absurd rfl hdsb
      | cons e0 ds' =>
        refine ⟨e0, ds' ++ (lsb ++ ('.' :: rb)), ?_, hdsball e0 (List.mem_cons_self e0 ds')⟩
        injection hrest with _ hbr
        rw [← hbr]
        simp
    · -- the digit run stops inside a4
      have ha5 : a4.dropWhile isDigitC ≠ [] := fun e => hall (dropWhile_eq_nil_all e)
      have ha5e : (a4.dropWhile isDigitC).isEmpty = false := by
        cases hx : a4.dropWhile isDigitC with
        | nil => exact absurd hx ha5
        | cons e t => rfl
      have hsplit : (a4 ++ (d1 :: d2 :: d3 :: '.' :: (dsb ++ (lsb ++ ('.' :: rb))))).dropWhile
          isDigitC = a4.dropWhile isDigitC ++
            (d1 :: d2 :: d3 :: '.' :: (dsb ++ (lsb ++ ('.' :: rb)))) := by
        rw [List.dropWhile_append, ha5e]
        simp
      rw [hsplit] at hrest
      cases ha5' : a4.dropWhile isDigitC with
      | nil => exact absurd ha5' ha5
      | cons e a5' =>
        rw [ha5'] at hrest
        by_cases hall2 : ∀ c ∈ e :: a5', isLowerC c = true
        · exfalso
          rw [List.cons_append, ← List.cons_append, List.dropWhile_append_of_pos hall2,
            List.dropWhile_cons_of_neg (by simp [isLowerC_eq_false_of_digit hd1])] at hrest
          injection hrest with hdd _
          rw [hdd] at hd1
          exact absurd hd1 (by decide)
        · left
          have ha6 : (e :: a5').dropWhile isLowerC ≠ [] :=
            fun ee => hall2 (dropWhile_eq_nil_all ee)
          have ha6e : ((e :: a5').dropWhile isLowerC).isEmpty = false := by
            cases hx : (e :: a5').dropWhile isLowerC with
            | nil => exact absurd hx ha6
            | cons g t => rfl
          rw [List.cons_append, ← List.cons_append, List.dropWhile_append, ha6e] at hrest
          simp only [if_false, Bool.false_eq_true] at hrest
          cases ha6' : (e :: a5').dropWhile isLowerC with
          | nil => exact absurd ha6' ha6
          | cons g a6' =>
            rw [ha6'] at hrest
            rw [List.cons_append] at hrest
            injection hrest with _ hr
            exact ⟨a6', hr.symm⟩

/-- Shape of a rule entry accepted by `ruleMatchAt` with empty rest. -/
theorem ruleMatchAt_b_shape {b numb bodb : List Char}
    (hb : ruleMatchAt b = some (numb, bodb, [])) :
    ∃ d1 d2 d3 dsb lsb rb,
      b = d1 :: d2 :: d3 :: '.' :: (dsb ++ (lsb ++ ('.' :: rb))) ∧
      isDigitC d1 = true ∧ isDigitC d2 = true ∧ isDigitC d3 = true ∧
      dsb ≠ [] ∧ (∀ c ∈ dsb, isDigitC c = true) ∧
      (parseRuleNumDot b).isSome = true := by
  rw [ruleMatchAt] at hb
  cases hpd : parseRuleNumDot b with
  | none => rw [hpd] at hb; exact Option.noConfusion hb
  | some pr =>
    rcases pr with ⟨num, r₁⟩
    obtain ⟨c1, c2, c3, ds, ls, hs, hn, h1, h2, h3, hds, hdall, hlall⟩ :=
      parseRuleNumber_decomp (parseRuleNumDot_inv hpd)
    exact ⟨c1, c2, c3, ds, ls, r₁, hs, h1, h2, h3, hds, hdall, rfl⟩

/-- No successful match that starts strictly before a complete rule entry
`b` can consume past the start of `b`: its rest still ends with all of
`b`. -/
theorem ruleMatchAt_append_suffix {b numb bodb : List Char}
    (hb : ruleMatchAt b = some (numb, bodb, [])) :
    ∀ (a n bd r : List Char), a ≠ [] → ruleMatchAt (a ++ b) = some (n, bd, r) →
      ∃ a'', r = a'' ++ b := by
  obtain ⟨d1, d2, d3, dsb, lsb, rb, hbeq, hd1, hd2, hd3, hdsb, hdsball, hsome⟩ :=
    ruleMatchAt_b_shape hb
  intro a n bd r hne h
  rw [ruleMatchAt] at h
  cases hpd : parseRuleNumDot (a ++ b) with
  | none => rw [hpd] at h; exact Option.noConfusion h
  | some pr =>
    rcases pr with ⟨num, r₁⟩
    rw [hpd] at h
    have h' : (if (List.takeWhile isSpaceC r₁).isEmpty = true then none
        else match scanBody (List.dropWhile isSpaceC r₁) with
          | some (body, rest) => some (num, body, rest)
          | none => none) = some (n, bd, r) := h
    have hpd' := hpd
    rw [hbeq] at hpd'
    have hcases := parseRuleNumDot_append_cases d1 d2 d3 dsb lsb rb hd1 hd2 hd3 hdsb hdsball
      a num r₁ hne hpd'
    rcases hcases with ⟨a₁, ha₁⟩ | ⟨d, r', hr', hdig⟩
    · rw [← hbeq] at ha₁
      split_ifs at h' with hsp
      cases hsb : scanBody (r₁.dropWhile isSpaceC) with
      | none => rw [hsb] at h'; exact Option.noConfusion h'
      | some pr2 =>
        rcases pr2 with ⟨bd', r''⟩
        rw [hsb] at h'
        simp only [Option.some.injEq, Prod.mk.injEq] at h'
        have hb_head : ∀ c, b.head? = some c → isSpaceC c = false := by
          intro c hc
          rw [hbeq] at hc
          simp only [List.head?_cons, Option.some.injEq] at hc
          rw [← hc]
          exact isSpaceC_eq_false_of_digit hd1
        have hdw : r₁.dropWhile isSpaceC = (a₁.dropWhile isSpaceC) ++ b := by
          rw [ha₁]
          exact dropWhile_append_notHead a₁ hb_head
        rw [hdw] at hsb
        obtain ⟨x', hx'⟩ := scanBody_suffix hsome (a₁.dropWhile isSpaceC) bd' r'' hsb
        exact ⟨x', by rw [← h'.2.2, hx']⟩
    · rw [hr'] at h'
      rw [List.takeWhile_cons_of_neg (by simp [isSpaceC_eq_false_of_digit hdig])] at h'
      simp at h'

/-- A successful match consumes at least one character. -/
theorem ruleMatchAt_rest_length {s n bd r : List Char}
    (h : ruleMatchAt s = some (n, bd, r)) : r.length < s.length := by
  rw [ruleMatchAt] at h
  cases hpd : parseRuleNumDot s with
  | none => rw [hpd] at h; exact Option.noConfusion h
  | some pr =>
    rcases pr with ⟨num, r₁⟩
    rw [hpd] at h
    have h' : (if (List.takeWhile isSpaceC r₁).isEmpty = true then none
        else match scanBody (List.dropWhile isSpaceC r₁) with
          | some (body, rest) => some (num, body, rest)
          | none => none) = some (n, bd, r) := h
    split_ifs at h' with hsp
    cases hsb : scanBody (r₁.dropWhile isSpaceC) with
    | none => rw [hsb] at h'; exact Option.noConfusion h'
    | some pr2 =>
      rcases pr2 with ⟨bd', r''⟩
      rw [hsb] at h'
      simp only [Option.some.injEq, Prod.mk.injEq] at h'
      obtain ⟨hsplit, _⟩ := scanBody_decomp hsb
      obtain ⟨c1, c2, c3, ds, ls, hs, _, _, _, _, _, _, _⟩ :=
        parseRuleNumber_decomp (parseRuleNumDot_inv hpd)
      have l1 := congrArg List.length hs
      simp only [List.length_cons, List.length_append] at l1
      have l2 := congrArg List.length (List.takeWhile_append_dropWhile isSpaceC r₁)
      simp only [List.length_append] at l2
      have l3 := congrArg List.length hsplit
      simp only [List.length_append] at l3
      have l4 : 1 ≤ (r₁.takeWhile isSpaceC).length := by
        cases hx : r₁.takeWhile isSpaceC with
        | nil => exfalso; rw [hx] at hsp; exact hsp rfl
        | cons c t => simp
      rw [← h'.2.2]
      omega

theorem isDigitC_eq_false_of_lower {c : Char} (h : isLowerC c = true) :
    isDigitC c = false := by
  cases hd : isDigitC c
  · rfl
  · rw [isLowerC_eq_false_of_digit hd] at h
    exact absurd h (by decide)

theorem takeWhile_eq_self_of_all {p : Char → Bool} {l : List Char}
    (h : ∀ c ∈ l, p c = true) : l.takeWhile p = l := by
  induction l with
  | nil => rfl
  | cons c t ih =>
    rw [List.takeWhile_cons_of_pos (h c (by simp))]
    rw [ih (fun x hx => h x (by simp [hx]))]

theorem dropWhile_eq_nil_of_all {p : Char → Bool} {l : List Char}
    (h : ∀ c ∈ l, p c = true) : l.dropWhile p = [] := by
  induction l with
  | nil => rfl
  | cons c t ih =>
    rw [List.dropWhile_cons_of_pos (h c (by simp))]
    exact ih (fun x hx => h x (by simp [hx]))

/-- The first capture of every successful rule match has the shape
`\d{3}\.\d+[a-z]*`. -/
theorem matchesRulePat_of_parse {s n bd r : List Char}
    (h : ruleMatchAt s = some (n, bd, r)) : matchesRulePat n = true := by
  rw [ruleMatchAt] at h
  cases hpd : parseRuleNumDot s with
  | none => rw [hpd] at h; exact Option.noConfusion h
  | some pr =>
    rcases pr with ⟨num, r₁⟩
    rw [hpd] at h
    have h' : (if (List.takeWhile isSpaceC r₁).isEmpty = true then none
        else match scanBody (List.dropWhile isSpaceC r₁) with
          | some (body, rest) => some (num, body, rest)
          | none => none) = some (n, bd, r) := h
    split_ifs at h' with hsp
    cases hsb : scanBody (r₁.dropWhile isSpaceC) with
    | none => rw [hsb] at h'; exact Option.noConfusion h'
    | some pr2 =>
      rcases pr2 with ⟨bd', r''⟩
      rw [hsb] at h'
      simp only [Option.some.injEq, Prod.mk.injEq] at h'
      obtain ⟨c1, c2, c3, ds, ls, _, hn, h1, h2, h3, hds, hdall, hlall⟩ :=
        parseRuleNumber_decomp (parseRuleNumDot_inv hpd)
      rw [← h'.1, hn]
      have hlsd : ∀ c, ls.head? = some c → isDigitC c = false := by
        intro c hc
        cases ls with
        | nil => exact Option.noConfusion hc
        | cons x t =>
          simp only [List.head?_cons, Option.some.injEq] at hc
          rw [← hc]
          exact isDigitC_eq_false_of_lower (hlall x (by simp))
      have htake : (ds ++ ls).takeWhile isDigitC = ds := by
        rw [takeWhile_append_notHead ds hlsd, takeWhile_eq_self_of_all hdall]
      have hdrop : (ds ++ ls).dropWhile isDigitC = ls := by
        rw [dropWhile_append_notHead ds hlsd, dropWhile_eq_nil_of_all hdall]
        rfl
      simp only [matchesRulePat, htake, hdrop]
      rw [h1, h2, h3]
      have hde : ds.isEmpty = false := by
        cases ds with
        | nil => exact absurd rfl hds
        | cons _ _ => rfl
      rw [hde]
      simp [List.all_eq_true]
      exact hlall

/-- A complete rule entry at the very start of the scan is reported. -/
theorem findRuleMatchesF_base {b numb bodb : List Char}
    (hb : ruleMatchAt b = some (numb, bodb, []))
    (fuel : Nat) (hf : b.length ≤ fuel) :
    (numb, bodb) ∈ findRuleMatchesF fuel b := by
  obtain ⟨d1, d2, d3, dsb, lsb, rb, hbeq, _, _, _, _, _, _⟩ := ruleMatchAt_b_shape hb
  subst hbeq
  cases fuel with
  | zero => simp only [List.length_cons] at hf; omega
  | succ f =>
    simp only [findRuleMatchesF]
    rw [hb]
    exact List.mem_cons_self _ _

/-- Scan survival: a complete rule entry `b` that terminates the input is
reported by the global scan however much text precedes it, as long as the
fuel covers the input. -/
theorem findRuleMatchesF_mem {b numb bodb : List Char}
    (hb : ruleMatchAt b = some (numb, bodb, [])) :
    ∀ (N : Nat) (a : List Char) (fuel : Nat), a.length ≤ N → (a ++ b).length ≤ fuel →
      (numb, bodb) ∈ findRuleMatchesF fuel (a ++ b) := by
  intro N
  induction N with
  | zero =>
    intro a fuel ha hf
    have hnil : a = [] := List.eq_nil_of_length_eq_zero (Nat.le_zero.1 ha)
    subst hnil
    exact findRuleMatchesF_base hb fuel (by simpa using hf)
  | succ N ih =>
    intro a fuel ha hf
    cases a with
    | nil => exact findRuleMatchesF_base hb fuel (by simpa using hf)
    | cons x xs =>
      have ha' : xs.length + 1 ≤ N + 1 := by simpa using ha
      cases fuel with
      | zero =>
        exfalso
        simp only [List.length_append, List.length_cons] at hf
        omega
      | succ f =>
        have hf' : xs.length + b.length + 1 ≤ f + 1 := by
          simp only [List.length_append, List.length_cons] at hf
          omega
        rw [List.cons_append]
        simp only [findRuleMatchesF]
        cases hm : ruleMatchAt (x :: (xs ++ b)) with
        | none =>
          show (numb, bodb) ∈ findRuleMatchesF f (xs ++ b)
          exact ih xs f (by omega) (by simp only [List.length_append]; omega)
        | some pr =>
          rcases pr with ⟨n, bd, r⟩
          have hm' : ruleMatchAt ((x :: xs) ++ b) = some (n, bd, r) := by
            rw [List.cons_append]; exact hm
          obtain ⟨a'', ha''⟩ := ruleMatchAt_append_suffix hb (x :: xs) n bd r (by simp) hm'
          have hlen := ruleMatchAt_rest_length hm'
          have e1 := congrArg List.length ha''
          simp only [List.length_append] at e1
          simp only [List.length_append, List.length_cons] at hlen
          show (numb, bodb) ∈ (n, bd) :: findRuleMatchesF f r
          apply List.mem_cons_of_mem
          rw [ha'']
          exact ih a'' f (by omega) (by simp only [List.length_append]; omega)

/-- Every pair the global scan reports has a rule number of the produced
shape. -/
theorem findRuleMatchesF_nums :
    ∀ (fuel : Nat) (s : List Char) (p : List Char × List Char),
      p ∈ findRuleMatchesF fuel s → matchesRulePat p.1 = true := by
  intro fuel
  induction fuel with
  | zero => intro s p hp; exact absurd hp (by simp [findRuleMatchesF])
  | succ f ih =>
    intro s p hp
    cases s with
    | nil => exact absurd hp (by simp [findRuleMatchesF])
    | cons c cs =>
      simp only [findRuleMatchesF] at hp
      cases hm : ruleMatchAt (c :: cs) with
      | none =>
        rw [hm] at hp
        exact ih cs p hp
      | some pr =>
        rcases pr with ⟨n, bd, r⟩
        rw [hm] at hp
        have hp' : p ∈ (n, bd) :: findRuleMatchesF f r := hp
        rcases List.mem_cons.1 hp' with h | h
        · rw [h]
          exact matchesRulePat_of_parse hm
        · exact ih r p h

/-- Every emitted record's rule number is the first capture of some
reported match. -/
theorem buildRuleEntries_ruleNumber (chapters sections : List (Nat × List Char)) :
    ∀ (found : List (List Char × List Char)) (curCh curSec : List Char) (e : RuleEntry),
      e ∈ buildRuleEntries chapters sections curCh curSec found →
      ∃ p, p ∈ found ∧ e.ruleNumber = p.1 := by
  intro found
  induction found with
  | nil => intro _ _ e he; exact absurd he (by simp [buildRuleEntries])
  | cons hd tl ih =>
    intro curCh curSec e he
    rcases hd with ⟨num, body⟩
    simp only [buildRuleEntries] at he
    split_ifs at he with hlen
    · rcases List.mem_cons.1 he with h | h
      · exact ⟨(num, body), List.mem_cons_self _ _, by rw [h]; rfl⟩
      · obtain ⟨p, hp, hnum⟩ := ih _ _ e h
        exact ⟨p, List.mem_cons_of_mem _ hp, hnum⟩
    · obtain ⟨p, hp, hnum⟩ := ih _ _ e he
      exact ⟨p, List.mem_cons_of_mem _ hp, hnum⟩

/-- A reported match with a long-enough trimmed body guarantees at least
one emitted record. -/
theorem buildRuleEntries_ne_nil (chapters sections : List (Nat × List Char)) :
    ∀ (found : List (List Char × List Char)) (curCh curSec numb bodb : List Char),
      (numb, bodb) ∈ found → 10 < (trimList bodb).length →
      buildRuleEntries chapters sections curCh curSec found ≠ [] := by
  intro found
  induction found with
  | nil => intro _ _ _ _ hmem _; exact absurd hmem (by simp)
  | cons hd tl ih =>
    intro curCh curSec numb bodb hmem hgood
    rcases hd with ⟨num, body⟩
    simp only [buildRuleEntries]
    split_ifs with hlen
    · simp
    · rcases List.mem_cons.1 hmem with h | h
      · exfalso
        injection h with h1 h2
        rw [h2] at hgood
        exact hlen hgood
      · exact ih _ _ numb bodb h hgood

/-- Claim C4 counterexample: the code's rule-number pattern is
`\d{3}\.\d+[a-z]*`, not the spec's `\d{3}\.\d+[a-z]?`: a rulebook whose
single rule is numbered `100.1ab` parses to exactly that record, and its
number fails the spec's at-most-one-letter pattern while matching the
code's zero-or-more pattern. -/
theorem c4_counterexample :
    (parseComprehensiveRules
        (("1. Game Concepts 100.1ab. This body is long enough.").toList)).map
      RuleEntry.ruleNumber = [("100.1ab").toList] ∧
    matchesClaimRulePat (("100.1ab").toList) = false ∧
    matchesRulePat (("100.1ab").toList) = true := by
  decide

/-- Claim C4 (amended): for any text whose anchor suffix ends in a complete
rule entry with a trimmed body longer than 10 characters, the parser emits
at least one record, and every emitted record's rule number matches
`\d{3}\.\d+[a-z]*` — zero or more trailing lowercase letters, not at most
one as the specification's pattern states. -/
theorem c4_amended (a b numb bodb text : List Char)
    (hanchor : dropToAnchor text = some (a ++ b))
    (hmatch : ruleMatchAt b = some (numb, bodb, []))
    (hgood : 10 < (trimList bodb).length) :
    parseComprehensiveRules text ≠ [] ∧
      ∀ e ∈ parseComprehensiveRules text, matchesRulePat e.ruleNumber = true := by
  have hparse : parseComprehensiveRules text =
      buildRuleEntries (collectChaptersF (a ++ b).length (a ++ b))
        (collectSectionsF (a ++ b).length (a ++ b)) (("Game Concepts").toList) []
        (findRuleMatchesF (a ++ b).length (a ++ b)) := by
    rw [parseComprehensiveRules, hanchor]
  rw [hparse]
  constructor
  · exact buildRuleEntries_ne_nil _ _ _ _ _ _ _
      (findRuleMatchesF_mem hmatch a.length a (a ++ b).length (le_refl _) (le_refl _)) hgood
  · intro e he
    obtain ⟨p, hp, hnum⟩ := buildRuleEntries_ruleNumber _ _ _ _ _ e he
    rw [hnum]
    exact findRuleMatchesF_nums _ _ p hp

/-- Witness for the amended claim C4 at a concrete rulebook text. -/
theorem c4_witness :
    parseComprehensiveRules
        (("1. Game Concepts 100.1a. This is a valid rule body.").toList) ≠ [] ∧
      ∀ e ∈ parseComprehensiveRules
          (("1. Game Concepts 100.1a. This is a valid rule body.").toList),
        matchesRulePat e.ruleNumber = true :=
  c4_amended (("1. Game Concepts ").toList) (("100.1a. This is a valid rule body.").toList)
    (("100.1a").toList) (("This is a valid rule body.").toList)
    (("1. Game Concepts 100.1a. This is a valid rule body.").toList)
    (by decide) (by decide) (by decide)
